import Mathlib

/-
Verification of the TTS request gateway (bandhannova-tts).

The development shallowly embeds the Python sources:
  * text_utils.py  — text normalization (pronunciation map, acronym
    expansion, whitespace collapsing);
  * config.py      — the constants the engine reads;
  * tts_engine.py  — TTSEngine.generate_speech and its helpers, modelled as a
    deterministic function of the request together with a World record that
    fixes the outcome of every external effect (cache contents, provider
    results);
  * app.py         — process_generate_request and get_voice_id.

Text is modelled as List Char (Python str).  Machine effects (file system,
network) are captured by oracles in the World structure; the function returns
its result together with a trace of the externally visible events
(cache lookups, provider invocations, cache writes) in program order.
-/

set_option maxHeartbeats 2000000
set_option linter.unusedVariables false

namespace TTS

/-- Python strings are modelled as lists of characters. -/
abbrev Str := List Char

/-- Audio payloads: raw bytes. -/
abbrev Bytes := List Nat

/-! ## Character classes (text_utils.py uses re with \s, \b, [A-Z]).
We model the ASCII fragment of the relevant character classes; the
pronunciation keys and the acronym class [A-Z] are ASCII, and Python's \s and
\w restricted to ASCII are exactly the sets below. -/

/-- Whitespace (Python \s and str.strip over ASCII):
space, tab, newline, carriage return, vertical tab, form feed. -/
def isWS (c : Char) : Bool :=
  c.toNat = 32 || c.toNat = 9 || c.toNat = 10 || c.toNat = 13 ||
  c.toNat = 11 || c.toNat = 12

/-- Word characters (Python \w over ASCII): letters, digits, underscore.
Word boundaries \b in expand_acronyms are determined by this class. -/
def isWordChar (c : Char) : Bool :=
  (65 ≤ c.toNat && c.toNat ≤ 90) || (97 ≤ c.toNat && c.toNat ≤ 122) ||
  (48 ≤ c.toNat && c.toNat ≤ 57) || c.toNat = 95

/-- Uppercase ASCII letters, the class [A-Z] of the acronym regex. -/
def isUpperAZ (c : Char) : Bool :=
  65 ≤ c.toNat && c.toNat ≤ 90

/-- ASCII lower casing, as performed by re.IGNORECASE on the ASCII
pronunciation keys. -/
def lowerAZ (c : Char) : Char :=
  if 65 ≤ c.toNat && c.toNat ≤ 90 then Char.ofNat (c.toNat + 32) else c

/-- Case-insensitive character equality (re.IGNORECASE matching over
ASCII): equal characters, or an upper/lower pair of the same letter
(lower = upper + 32). -/
def ciEq (a b : Char) : Bool :=
  a = b || (isUpperAZ a && b.toNat = a.toNat + 32) ||
  (isUpperAZ b && a.toNat = b.toNat + 32)

/-- pat is a case-insensitive prefix of the text. -/
def startsWithCI : Str → Str → Bool
  | [], _ => true
  | _ :: _, [] => false
  | p :: ps, c :: cs => ciEq p c && startsWithCI ps cs

/-- Case-insensitive pointwise agreement of two strings up to the shorter
length. -/
def agreeCI : Str → Str → Bool
  | [], _ => true
  | _, [] => true
  | a :: as, b :: bs => ciEq a b && agreeCI as bs

/-- The text contains a case-insensitive occurrence of pat. -/
def containsCI (pat : Str) : Str → Bool
  | [] => startsWithCI pat []
  | c :: cs => startsWithCI pat (c :: cs) || containsCI pat cs

/-- re.sub of the literal (re.escape-d) pattern key by repl under
re.IGNORECASE: leftmost, non-overlapping replacement, scanning resuming
after each replaced occurrence.  This is the loop body of normalize_text
(text_utils.py lines 41-43). -/
def replaceCI (key repl : Str) : Str → Str
  | [] => []
  | c :: cs =>
    if startsWithCI key (c :: cs) then
      repl ++ replaceCI key repl (cs.drop (key.length - 1))
    else
      c :: replaceCI key repl cs
termination_by t => t.length
decreasing_by
  · simp [List.length_drop]; omega
  · simp

/-- Python str.replace: leftmost, non-overlapping, case-sensitive
replacement of every occurrence (used on output paths in tts_engine.py). -/
def pyReplace (key repl : Str) : Str → Str
  | [] => []
  | c :: cs =>
    if key.isPrefixOf (c :: cs) then
      repl ++ pyReplace key repl (cs.drop (key.length - 1))
    else
      c :: pyReplace key repl cs
termination_by t => t.length
decreasing_by
  · simp [List.length_drop]; omega
  · simp

/-- PRONUNCIATION_MAP of text_utils.py, in insertion (iteration) order. -/
def PRONUNCIATION_MAP : List (Str × Str) :=
  [("BandhanNova".data, "Bandhan Nova".data),
   ("BandhaNova".data, "Bandha Nova".data)]

/-- spacing_replacer applied to a maximal word-character run: the regex
\b[A-Z]{2,4}\b matches exactly the maximal \w-runs that consist solely of
[A-Z] and have length 2 to 4 (a longer or mixed run has no word boundary
inside it), and the replacer joins the letters with single spaces. -/
def processWord (w : Str) : Str :=
  if w.all isUpperAZ && (2 ≤ w.length && w.length ≤ 4) then
    List.intersperse ' ' w
  else w

/-- expand_acronyms (text_utils.py lines 15-30): re.sub of
\b[A-Z]{2,4}\b by spacing_replacer, expressed over maximal word runs. -/
def expandAcronyms : Str → Str
  | [] => []
  | c :: cs =>
    if isWordChar c then
      processWord (c :: cs.takeWhile isWordChar) ++
        expandAcronyms (cs.dropWhile isWordChar)
    else
      c :: expandAcronyms cs
termination_by t => t.length
decreasing_by
  · exact Nat.lt_succ_of_le (List.Sublist.length_le (List.dropWhile_sublist _))
  · simp

/-- re.sub of \s+ by a single space (text_utils.py line 50, first half). -/
def collapseWS : Str → Str
  | [] => []
  | c :: cs =>
    if isWS c then
      ' ' :: collapseWS (cs.dropWhile isWS)
    else
      c :: collapseWS cs
termination_by t => t.length
decreasing_by
  · exact Nat.lt_succ_of_le (List.Sublist.length_le (List.dropWhile_sublist _))
  · simp

/-- Python str.strip from the left. -/
def stripLeft (t : Str) : Str := t.dropWhile isWS

/-- Python str.strip from the right. -/
def stripRight (t : Str) : Str := (t.reverse.dropWhile isWS).reverse

/-- Python str.strip (both ends). -/
def pyStrip (t : Str) : Str := stripRight (stripLeft t)

/-- normalize_text (text_utils.py lines 32-52): empty text is returned as
is; otherwise the pronunciation map is applied in insertion order, acronyms
are expanded, and whitespace is collapsed and stripped.  The language
argument is accepted and unused, exactly as in the source. -/
def normalize_text (t : Str) (language : Str) : Str :=
  if t = [] then t
  else
    let t1 := PRONUNCIATION_MAP.foldl (fun acc kv => replaceCI kv.1 kv.2 acc) t
    let t2 := expandAcronyms t1
    pyStrip (collapseWS t2)

/-! ## config.py -/

/-- The configuration attributes generate_speech reads.  config.py fixes
MAX_TEXT_LENGTH = 5000 and ENABLE_CACHE = True; theorems are stated over an
arbitrary configuration where the values do not matter. -/
structure Config where
  MAX_TEXT_LENGTH : Nat
  ENABLE_CACHE : Bool
deriving DecidableEq

/-- The values of config.py (lines 15 and 110). -/
def defaultConfig : Config := { MAX_TEXT_LENGTH := 5000, ENABLE_CACHE := true }

/-- SUPPORTED_LANGUAGES of config.py: code and display name of each entry,
in insertion order. -/
def SUPPORTED_LANGUAGES : List (Str × Str) :=
  [("bn".data, "Bengali".data), ("hi".data, "Hindi".data),
   ("mr".data, "Marathi".data), ("gu".data, "Gujarati".data),
   ("kn".data, "Kannada".data), ("ml".data, "Malayalam".data),
   ("pa".data, "Punjabi".data), ("ur".data, "Urdu".data),
   ("or".data, "Odia".data), ("as".data, "Assamese".data),
   ("ta".data, "Tamil".data), ("te".data, "Telugu".data),
   ("en".data, "English".data)]

/-- VOICE_PROFILES of config.py (lines 122-129). -/
def VOICE_PROFILES : List (Str × Str) :=
  [("bn_male".data, "bn-BD-PradeepNeural".data),
   ("bn_female".data, "bn-IN-TanishaaNeural".data),
   ("hi_male".data, "hi-IN-MadhurNeural".data),
   ("hi_female".data, "hi-IN-SwaraNeural".data),
   ("en_male".data, "en-US-ChristopherNeural".data),
   ("en_female".data, "en-US-AriaNeural".data)]

/-! ## tts_engine.py -/

/-- The four synthesis backends, in the priority order of
TTSEngine.generate_speech: Coqui XTTS voice cloning, Edge TTS neural cloud
voices, gTTS (robotic cloud), pyttsx3 offline. -/
inductive Provider
  | xtts
  | edge
  | gtts
  | offline
deriving DecidableEq, Repr

/-- Externally visible events of one generate_speech call, in program
order: a cache existence check plus read, a provider invocation (carrying
the language or voice argument passed to the backend), a cache write. -/
inductive Ev
  | cacheLookup (path : Str)
  | invoke (p : Provider) (arg : Str)
  | cacheWrite (path : Str) (data : Bytes)
deriving DecidableEq, Repr

/-- The two validation errors generate_speech raises (ValueError with the
messages of tts_engine.py lines 106 and 131). -/
inductive VErr
  | emptyText
  | tooLong
deriving DecidableEq, Repr

/-- Outcome of generate_speech: a bytes-and-mimetype pair (return_bytes
mode), a file path, a ValueError, or a propagated synthesis exception
tagged with the provider whose failure escaped. -/
inductive GenResult
  | bytes (data : Bytes) (mime : String)
  | file (path : Str)
  | valueError (e : VErr)
  | synthError (src : Provider)
deriving DecidableEq, Repr

/-- Availability flags probed once in TTSEngine.__init__ (whether
self.xtts is not None, self.edge_tts_available, self.offline_available)
together with the configuration. -/
structure Engine where
  xtts : Bool
  edge_tts_available : Bool
  offline_available : Bool
  config : Config

/-- Oracle fixing every external effect of a single generate_speech call:
the cache directory contents (none = file absent), whether the supplied
speaker_wav path exists, and each backend's outcome (none = the provider
attempt raises; for edge, some chunks that may be empty).  File writes by
the engine itself are assumed to succeed; an I/O failure inside a
provider's try block is subsumed by that provider's none outcome. -/
structure World where
  cache : Str → Option Bytes
  speaker_wav_exists : Bool
  xttsResult : Option Bytes
  edgeResult : Option Bytes
  gttsResult : Option Bytes
  offlineResult : Option Bytes
  pydub_available : Bool
  now : Nat

/-- Python truthiness of an optional string: None and the empty string are
falsy. -/
def optTruthy (o : Option Str) : Bool :=
  o.getD [] ≠ []

/-- Python f-string rendering of an optional string (None prints as
"None"), used when the cache key interpolates voice_id. -/
def pyOptionStr : Option Str → Str
  | none => "None".data
  | some v => v

/-- TTSEngine._get_cache_path (lines 84-90): the key string
text|language|voice_id|speed is digested with SHA-256 and the hex digest
names an .mp3 file in CACHE_DIR.  The digest is a fixed deterministic
function of the key string, and every cache property verified here depends
only on equality of cache paths, so the digest (and the constant directory
part) is modelled by the key string itself: equal key strings give equal
paths, and the exhibited collisions are collisions of the key strings
themselves, hence of the real digests too.  speed is a float interpolated
by str(); it is modelled by its rendering speedRepr. -/
def _get_cache_path (text language : Str) (voice_id : Option Str)
    (speedRepr : Str) : Str :=
  (text ++ "|".data ++ language ++ "|".data ++ pyOptionStr voice_id ++
    "|".data ++ speedRepr) ++ ".mp3".data

/-- lang_map of TTSEngine._get_gtts_lang_code (lines 92-98). -/
def gtts_lang_map : List (Str × Str) :=
  [("bn".data, "bn".data), ("hi".data, "hi".data), ("mr".data, "mr".data),
   ("gu".data, "gu".data), ("kn".data, "kn".data), ("ml".data, "ml".data),
   ("ta".data, "ta".data), ("te".data, "te".data), ("en".data, "en".data)]

/-- TTSEngine._get_gtts_lang_code: dict .get with default en. -/
def _get_gtts_lang_code (language : Str) : Str :=
  (gtts_lang_map.lookup language).getD ("en".data)

/-- Test for a string suffix (Python str.endswith). -/
def endsWithStr (suffx t : Str) : Bool :=
  suffx.isSuffixOf t

/-- Path rewriting of TTSEngine._generate_offline (lines 288-289): a
non-.wav output path has every ".mp3" occurrence replaced by ".wav". -/
def offlineOutPath (output_path : Str) : Str :=
  if endsWithStr (".wav".data) output_path then output_path
  else pyReplace (".mp3".data) (".wav".data) output_path

/-- Fallback to pyttsx3, lines 259-276 and 285-295: only reached when the
gTTS attempt raised.  If the offline engine is unavailable the gTTS
exception is re-raised (line 276); otherwise _generate_offline runs, its
own failure propagating (line 295).  In return_bytes mode the audio is
synthesized to a temp .wav file and its bytes returned with mimetype
audio/wav (lines 264-272); no cache write happens on this path. -/
def tryOffline (e : Engine) (w : World) (output_path : Str)
    (return_bytes : Bool) : GenResult × List Ev :=
  if e.offline_available then
    match w.offlineResult with
    | some b =>
      if return_bytes then (.bytes b "audio/wav", [.invoke .offline []])
      else (.file (offlineOutPath output_path), [.invoke .offline []])
    | none => (.synthError .offline, [.invoke .offline []])
  else
    (.synthError .gtts, [])

/-- gTTS attempt, lines 224-257: always applicable.  On success in
return_bytes mode the bytes are returned with audio/mpeg and, notably,
never written to the cache; in path mode a .wav output path triggers a
pydub conversion (falling back to the .mp3 temp file on ImportError).  On
failure control passes to the offline fallback. -/
def tryGtts (e : Engine) (w : World) (language : Str)
    (output_path : Option Str) (return_bytes : Bool) : GenResult × List Ev :=
  let glang := _get_gtts_lang_code language
  match w.gttsResult with
  | some b =>
    if return_bytes then (.bytes b "audio/mpeg", [.invoke .gtts glang])
    else
      let op := output_path.getD []
      if endsWithStr (".wav".data) op then
        if w.pydub_available then (.file op, [.invoke .gtts glang])
        else (.file (pyReplace (".wav".data) (".mp3".data) op),
              [.invoke .gtts glang])
      else (.file op, [.invoke .gtts glang])
  | none =>
    let r := tryOffline e w (output_path.getD []) return_bytes
    (r.1, .invoke .gtts glang :: r.2)

/-- Edge TTS attempt, lines 181-222: applicable when a voice_id was
resolved and the backend was detected at startup.  Empty streamed output
raises (line 202) and falls through like any other failure.  On success
the bytes are written to the cache (when enabled) before the return,
in both return modes. -/
def tryEdge (e : Engine) (w : World) (text language : Str)
    (speedRepr : Str) (voice_id : Option Str) (output_path : Option Str)
    (return_bytes : Bool) : GenResult × List Ev :=
  if optTruthy voice_id && e.edge_tts_available then
    let ev := Ev.invoke .edge (voice_id.getD [])
    match w.edgeResult with
    | some b =>
      if b = [] then
        let r := tryGtts e w language output_path return_bytes
        (r.1, ev :: r.2)
      else
        let cacheEvs :=
          if e.config.ENABLE_CACHE then
            [Ev.cacheWrite (_get_cache_path text language voice_id speedRepr) b]
          else []
        if return_bytes then (.bytes b "audio/mpeg", ev :: cacheEvs)
        else (.file (output_path.getD []), ev :: cacheEvs)
    | none =>
      let r := tryGtts e w language output_path return_bytes
      (r.1, ev :: r.2)
  else
    tryGtts e w language output_path return_bytes

/-- XTTS voice-cloning attempt, lines 143-178: applicable when the model
initialized, a speaker_wav was supplied (truthy) and the file exists.  On
success in return_bytes mode the bytes are cached (when enabled) and
returned with mimetype audio/wav; in path mode the file path is returned
with no cache write.  On failure control passes to the Edge attempt. -/
def tryXtts (e : Engine) (w : World) (text language : Str)
    (speedRepr : Str) (voice_id : Option Str) (speaker_wav : Option Str)
    (output_path : Option Str) (return_bytes : Bool) : GenResult × List Ev :=
  if e.xtts && optTruthy speaker_wav && w.speaker_wav_exists then
    let ev := Ev.invoke .xtts language
    match w.xttsResult with
    | some b =>
      if return_bytes then
        let cacheEvs :=
          if e.config.ENABLE_CACHE then
            [Ev.cacheWrite (_get_cache_path text language voice_id speedRepr) b]
          else []
        (.bytes b "audio/wav", ev :: cacheEvs)
      else (.file (output_path.getD []), [ev])
    | none =>
      let r := tryEdge e w text language speedRepr voice_id output_path
        return_bytes
      (r.1, ev :: r.2)
  else
    tryEdge e w text language speedRepr voice_id output_path return_bytes

/-- Output path generated at lines 134-141 when none was supplied in path
mode: tts_{language}_{timestamp}.{ext} with ext wav exactly when the XTTS
model is initialized and speaker_wav is truthy. -/
def genOutputPath (e : Engine) (w : World) (language : Str)
    (speaker_wav : Option Str) : Str :=
  "tts_".data ++ language ++ "_".data ++ (Nat.repr w.now).data ++ ".".data ++
    (if e.xtts && optTruthy speaker_wav then "wav".data else "mp3".data)

/-- Lines 130-283 of generate_speech: everything after the cache check —
the length validation, output path generation, and the provider chain. -/
def afterCache (e : Engine) (w : World) (text language : Str)
    (speedRepr : Str) (voice_id : Option Str) (speaker_wav : Option Str)
    (output_path0 : Option Str) (return_bytes : Bool) : GenResult × List Ev :=
  if e.config.MAX_TEXT_LENGTH < text.length then
    (.valueError .tooLong, [])
  else
    let output_path :=
      if output_path0 = none && !return_bytes then
        some (genOutputPath e w language speaker_wav)
      else output_path0
    tryXtts e w text language speedRepr voice_id speaker_wav output_path
      return_bytes

/-- TTSEngine.generate_speech (lines 100-283).  The validation of
non-empty text (line 105) comes first; the text is then normalized (109),
the cache is consulted (113-128) — a hit returning immediately with
mimetype audio/mpeg in bytes mode — and only then is the length bound
checked (130) and the provider chain entered.  speed is a float whose only
uses are its str() rendering in the cache key and provider-local rate
arguments subsumed in the provider oracles, so the request carries its
rendering speedRepr. -/
def generate_speech (e : Engine) (w : World) (text0 language : Str)
    (speedRepr : Str) (voice_id : Option Str) (speaker_wav : Option Str)
    (output_path0 : Option Str) (return_bytes : Bool) : GenResult × List Ev :=
  if text0 = [] || pyStrip text0 = [] then
    (.valueError .emptyText, [])
  else
    let text := normalize_text text0 language
    if e.config.ENABLE_CACHE then
      let cp := _get_cache_path text language voice_id speedRepr
      match w.cache cp with
      | some b =>
        if return_bytes then (.bytes b "audio/mpeg", [.cacheLookup cp])
        else
          match output_path0 with
          | some op =>
            if op ≠ cp then (.file op, [.cacheLookup cp])
            else (.file cp, [.cacheLookup cp])
          | none => (.file cp, [.cacheLookup cp])
      | none =>
        let r := afterCache e w text language speedRepr voice_id speaker_wav
          output_path0 return_bytes
        (r.1, .cacheLookup cp :: r.2)
    else
      afterCache e w text language speedRepr voice_id speaker_wav
        output_path0 return_bytes

/-- The providers a trace invoked, in order. -/
def invoked (evs : List Ev) : List Provider :=
  evs.filterMap (fun ev => match ev with
    | .invoke p _ => some p
    | _ => none)

/-- Whether an event is a cache write. -/
def isCacheWrite (ev : Ev) : Bool :=
  match ev with
  | .cacheWrite _ _ => true
  | _ => false

/-! ## app.py -/

/-- app.get_voice_id (lines 149-159): default and sanitize the gender,
then look up language_gender in VOICE_PROFILES. -/
def get_voice_id (lang_code gender0 : Str) : Option Str :=
  let gender1 := if gender0 = [] then "female".data else gender0.map lowerAZ
  let gender2 :=
    if gender1 = "male".data || gender1 = "female".data then gender1
    else "female".data
  VOICE_PROFILES.lookup (lang_code ++ "_".data ++ gender2)

/-- HTTP-level outcome of process_generate_request. -/
inductive HttpResult
  | audio (data : Bytes) (mime : String)
  | jsonError (status : Nat)
deriving DecidableEq, Repr

/-- app.process_generate_request (lines 164-232).  It validates emptiness
and raw length up front (400), resolves the voice, and — when streaming is
requested — tries Response(engine.generate_speech_stream(...)).  TTSEngine
defines no generate_speech_stream attribute, so that access raises
AttributeError inside the try and the handler falls through (lines
208-211) to the buffered path, which calls generate_speech with
return_bytes=True and wraps the buffer in send_file; an engine exception
becomes a 500.  The speed/pitch clamping of lines 180-181 acts on the
float values, whose rendering the request carries as speedRepr; pitch is
never used downstream. -/
def process_generate_request (e : Engine) (w : World) (text lang_code : Str)
    (speedRepr : Str) (gender : Str) (stream : Bool) : HttpResult × List Ev :=
  if text = [] then (.jsonError 400, [])
  else if e.config.MAX_TEXT_LENGTH < text.length then (.jsonError 400, [])
  else
    let voice_id := get_voice_id lang_code gender
    -- streaming attempt: always fails before the first chunk
    -- (AttributeError on the missing method), regardless of stream
    let r := generate_speech e w text lang_code speedRepr voice_id none none
      true
    match r.1 with
    | .bytes b m => (.audio b m, r.2)
    | .valueError _ => (.jsonError 500, r.2)
    | .synthError _ => (.jsonError 500, r.2)
    | .file _ => (.jsonError 500, r.2)

/-! ## Specification-side definitions (for the refinement claims).
These follow the words of the spec, not the code, and are compared with
the code model by the theorems. -/

/-- Following the spec: the applicability predicates of the four providers
in fixed priority order — voice cloning needs an existing reference
sample and an initialized model, neural cloud needs a resolved voice
identifier and a detected backend, robotic cloud is always applicable,
offline needs a successfully initialized local engine. -/
def specApplicable (e : Engine) (w : World) (voice_id speaker_wav : Option Str) :
    List Provider :=
  (if e.xtts && optTruthy speaker_wav && w.speaker_wav_exists then
    [Provider.xtts] else []) ++
  (if optTruthy voice_id && e.edge_tts_available then
    [Provider.edge] else []) ++
  [Provider.gtts] ++
  (if e.offline_available then [Provider.offline] else [])

/-- Following the spec: whether a provider attempt succeeds (empty output
counts as failure). -/
def specSucceeds (w : World) : Provider → Bool
  | .xtts => w.xttsResult.isSome
  | .edge => (match w.edgeResult with
    | some b => decide (b ≠ [])
    | none => false)
  | .gtts => w.gttsResult.isSome
  | .offline => w.offlineResult.isSome

/-- Following the spec: the chain invokes the applicable providers in
order up to and including the first success; if none succeeds every
applicable provider is invoked. -/
def specChainTrace (w : World) : List Provider → List Provider
  | [] => []
  | p :: ps => if specSucceeds w p then [p] else p :: specChainTrace w ps

/-- Following the spec: the audio buffer and format tag produced by the
first succeeding provider of the chain, none if every one fails. -/
def specChainOutcome (w : World) : List Provider → Option (Bytes × String)
  | [] => none
  | p :: ps =>
    if specSucceeds w p then
      match p with
      | .xtts => (w.xttsResult.getD [], "audio/wav")
      | .edge => (w.edgeResult.getD [], "audio/mpeg")
      | .gtts => (w.gttsResult.getD [], "audio/mpeg")
      | .offline => (w.offlineResult.getD [], "audio/wav")
    else specChainOutcome w ps

/-- Correspondence between an engine result and the spec-side chain
outcome: a first-success outcome is returned as those bytes with that
format tag, and an all-fail outcome surfaces as a synthesis error. -/
def matchesOutcome (r : GenResult) (o : Option (Bytes × String)) : Prop :=
  match o with
  | some bm => r = .bytes bm.1 bm.2
  | none => ∃ p, r = .synthError p

/-! # Theorems -/

/-! ## Generic list/replicate helpers -/

lemma takeWhile_replicate_pos (p : Char → Bool) (c : Char) (n : Nat)
    (h : p c = true) :
    (List.replicate n c).takeWhile p = List.replicate n c := by
  induction n with
  | zero => rfl
  | succ n ih => simp [List.replicate_succ, List.takeWhile_cons, h, ih]

lemma dropWhile_replicate_pos (p : Char → Bool) (c : Char) (n : Nat)
    (h : p c = true) :
    (List.replicate n c).dropWhile p = [] := by
  induction n with
  | zero => rfl
  | succ n ih => simp [List.replicate_succ, List.dropWhile_cons, h, ih]

lemma dropWhile_replicate_neg (p : Char → Bool) (c : Char) (n : Nat)
    (h : p c = false) :
    (List.replicate n c).dropWhile p = List.replicate n c := by
  cases n with
  | zero => rfl
  | succ n => simp [List.replicate_succ, List.dropWhile_cons, h]

/-! ## Basic facts about the normalization components -/

lemma replaceCI_of_not_contains (key repl : Str) (t : Str)
    (h : containsCI key t = false) : replaceCI key repl t = t := by
  induction t using replaceCI.induct key repl with
  | case1 => rw [replaceCI]
  | case2 c cs hm ih => simp [containsCI, hm] at h
  | case3 c cs hm ih =>
    simp only [containsCI, Bool.or_eq_false_iff] at h
    rw [replaceCI, if_neg (by simp [hm]), ih h.2]

lemma containsCI_replicate_neq (k0 : Char) (k : Str) (c : Char) (n : Nat)
    (h : ciEq k0 c = false) :
    containsCI (k0 :: k) (List.replicate n c) = false := by
  induction n with
  | zero => simp [containsCI, startsWithCI]
  | succ n ih => simp [List.replicate_succ, containsCI, startsWithCI, h, ih]

lemma expandAcronyms_nil : expandAcronyms [] = [] := by
  rw [expandAcronyms]

lemma collapseWS_nil : collapseWS [] = [] := by
  rw [collapseWS]

lemma expandAcronyms_replicate_a (n : Nat) :
    expandAcronyms (List.replicate n 'a') = List.replicate n 'a' := by
  cases n with
  | zero => exact expandAcronyms_nil
  | succ n =>
    rw [List.replicate_succ, expandAcronyms]
    rw [if_pos (by decide), takeWhile_replicate_pos _ _ _ (by decide),
      dropWhile_replicate_pos _ _ _ (by decide)]
    rw [expandAcronyms_nil]
    have : processWord ('a' :: List.replicate n 'a') =
        'a' :: List.replicate n 'a' := by
      unfold processWord
      rw [if_neg]
      simp [List.all_cons]
      intro h
      exact absurd h (by decide)
    rw [this, List.append_nil, ← List.replicate_succ]

lemma collapseWS_replicate_a (n : Nat) :
    collapseWS (List.replicate n 'a') = List.replicate n 'a' := by
  induction n with
  | zero => exact collapseWS_nil
  | succ n ih =>
    rw [List.replicate_succ, collapseWS, if_neg (by decide), ih,
      ← List.replicate_succ]

lemma pyStrip_replicate_a (n : Nat) :
    pyStrip (List.replicate n 'a') = List.replicate n 'a' := by
  unfold pyStrip stripLeft stripRight
  rw [dropWhile_replicate_neg _ _ _ (by decide), List.reverse_replicate,
    dropWhile_replicate_neg _ _ _ (by decide), List.reverse_replicate]

lemma normalize_replicate_a (n : Nat) (language : Str) :
    normalize_text (List.replicate n 'a') language = List.replicate n 'a' := by
  cases n with
  | zero => rfl
  | succ n =>
    unfold normalize_text
    rw [if_neg (by simp)]
    have h1 : replaceCI ("BandhanNova".data) ("Bandhan Nova".data)
        (List.replicate (n + 1) 'a') = List.replicate (n + 1) 'a' :=
      replaceCI_of_not_contains _ _ _
        (containsCI_replicate_neq 'B' ("andhanNova".data) 'a' (n + 1)
          (by decide))
    have h2 : replaceCI ("BandhaNova".data) ("Bandha Nova".data)
        (List.replicate (n + 1) 'a') = List.replicate (n + 1) 'a' :=
      replaceCI_of_not_contains _ _ _
        (containsCI_replicate_neq 'B' ("andhaNova".data) 'a' (n + 1)
          (by decide))
    simp only [PRONUNCIATION_MAP, List.foldl_cons, List.foldl_nil]
    rw [h1, h2, expandAcronyms_replicate_a, collapseWS_replicate_a,
      pyStrip_replicate_a]

/-! ## C9: the gTTS language mapping -/

lemma gtts_arg_tryOffline (e : Engine) (w : World) (op : Str) (rb : Bool)
    (l : Str) : Ev.invoke .gtts l ∉ (tryOffline e w op rb).2 := by
  cases hov : e.offline_available <;> cases hor : w.offlineResult <;>
    cases rb <;> simp [tryOffline, hov, hor]

lemma tryGtts_trace_some (e : Engine) (w : World) (language : Str)
    (op : Option Str) (rb : Bool) (b : Bytes) (hg : w.gttsResult = some b) :
    (tryGtts e w language op rb).2 =
      [Ev.invoke .gtts (_get_gtts_lang_code language)] := by
  cases rb <;> simp only [tryGtts, hg] <;> split_ifs <;> rfl

lemma gtts_arg_tryGtts (e : Engine) (w : World) (language : Str)
    (op : Option Str) (rb : Bool) (l : Str)
    (h : Ev.invoke .gtts l ∈ (tryGtts e w language op rb).2) :
    l = _get_gtts_lang_code language := by
  rcases hg : w.gttsResult with _ | b
  · simp only [tryGtts, hg, List.mem_cons] at h
    rcases h with h | h
    · simpa using h
    · exact absurd h (gtts_arg_tryOffline e w (op.getD []) rb l)
  · rw [tryGtts_trace_some e w language op rb b hg] at h
    simpa using h

lemma gtts_arg_tryEdge (e : Engine) (w : World) (text language : Str)
    (speedRepr : Str) (voice_id : Option Str) (op : Option Str) (rb : Bool)
    (l : Str)
    (h : Ev.invoke .gtts l ∈ (tryEdge e w text language speedRepr voice_id op rb).2) :
    l = _get_gtts_lang_code language := by
  by_cases ha : (optTruthy voice_id && e.edge_tts_available) = true
  · rcases he : w.edgeResult with _ | b
    · simp only [tryEdge, ha, if_true, he, List.mem_cons] at h
      rcases h with h | h
      · simp at h
      · exact gtts_arg_tryGtts _ _ _ _ _ _ h
    · by_cases hb : b = []
      · simp only [tryEdge, ha, if_true, he, hb, if_pos rfl, List.mem_cons] at h
        rcases h with h | h
        · simp at h
        · exact gtts_arg_tryGtts _ _ _ _ _ _ h
      · cases rb <;>
          simp only [tryEdge, ha, if_true, he, if_neg hb] at h <;>
          split at h <;> simp at h
  · simp only [tryEdge, ha, if_false, Bool.false_eq_true] at h
    exact gtts_arg_tryGtts _ _ _ _ _ _ h

lemma gtts_arg_tryXtts (e : Engine) (w : World) (text language : Str)
    (speedRepr : Str) (voice_id speaker_wav : Option Str) (op : Option Str)
    (rb : Bool) (l : Str)
    (h : Ev.invoke .gtts l ∈
      (tryXtts e w text language speedRepr voice_id speaker_wav op rb).2) :
    l = _get_gtts_lang_code language := by
  by_cases ha : (e.xtts && optTruthy speaker_wav && w.speaker_wav_exists) = true
  · rcases hx : w.xttsResult with _ | b
    · simp only [tryXtts, ha, if_true, hx, List.mem_cons] at h
      rcases h with h | h
      · simp at h
      · exact gtts_arg_tryEdge _ _ _ _ _ _ _ _ _ h
    · cases rb <;> simp only [tryXtts, ha, if_true, hx] at h <;>
        (try split at h) <;> simp at h
  · simp only [tryXtts, ha, if_false, Bool.false_eq_true] at h
    exact gtts_arg_tryEdge _ _ _ _ _ _ _ _ _ h

lemma gtts_arg_afterCache (e : Engine) (w : World) (text language : Str)
    (speedRepr : Str) (voice_id speaker_wav : Option Str)
    (op0 : Option Str) (rb : Bool) (l : Str)
    (h : Ev.invoke .gtts l ∈
      (afterCache e w text language speedRepr voice_id speaker_wav op0 rb).2) :
    l = _get_gtts_lang_code language := by
  by_cases hl : e.config.MAX_TEXT_LENGTH < text.length
  · simp [afterCache, hl] at h
  · simp only [afterCache, hl, if_false] at h
    exact gtts_arg_tryXtts _ _ _ _ _ _ _ _ _ _ h

/-! Cache hit and miss shapes of generate_speech, reused by several
claims below. -/

lemma generate_speech_hit_trace (e : Engine) (w : World)
    (text0 language speedRepr : Str) (voice_id speaker_wav : Option Str)
    (op0 : Option Str) (rb : Bool) (b : Bytes)
    (hne : (text0 = [] || pyStrip text0 = []) = false)
    (hc : e.config.ENABLE_CACHE = true)
    (hhit : w.cache (_get_cache_path (normalize_text text0 language) language
      voice_id speedRepr) = some b) :
    (generate_speech e w text0 language speedRepr voice_id speaker_wav op0
      rb).2 = [.cacheLookup (_get_cache_path (normalize_text text0 language)
        language voice_id speedRepr)] := by
  simp only [generate_speech, hne, Bool.false_eq_true, if_false, hc, if_true,
    hhit]
  cases rb
  · cases op0 with
    | none => rfl
    | some op => simp only [Bool.false_eq_true, if_false]; split_ifs <;> rfl
  · rfl

lemma generate_speech_hit_bytes (e : Engine) (w : World)
    (text0 language speedRepr : Str) (voice_id speaker_wav : Option Str)
    (op0 : Option Str) (b : Bytes)
    (hne : (text0 = [] || pyStrip text0 = []) = false)
    (hc : e.config.ENABLE_CACHE = true)
    (hhit : w.cache (_get_cache_path (normalize_text text0 language) language
      voice_id speedRepr) = some b) :
    (generate_speech e w text0 language speedRepr voice_id speaker_wav op0
      true).1 = .bytes b "audio/mpeg" := by
  simp [generate_speech, hne, hc, hhit]

lemma generate_speech_miss (e : Engine) (w : World)
    (text0 language speedRepr : Str) (voice_id speaker_wav : Option Str)
    (op0 : Option Str) (rb : Bool)
    (hne : (text0 = [] || pyStrip text0 = []) = false)
    (hmiss : e.config.ENABLE_CACHE = true →
      w.cache (_get_cache_path (normalize_text text0 language) language
        voice_id speedRepr) = none) :
    (generate_speech e w text0 language speedRepr voice_id speaker_wav op0
        rb).1 =
      (afterCache e w (normalize_text text0 language) language speedRepr
        voice_id speaker_wav op0 rb).1 ∧
    (generate_speech e w text0 language speedRepr voice_id speaker_wav op0
        rb).2 =
      (if e.config.ENABLE_CACHE then
        [Ev.cacheLookup (_get_cache_path (normalize_text text0 language)
          language voice_id speedRepr)] else []) ++
      (afterCache e w (normalize_text text0 language) language speedRepr
        voice_id speaker_wav op0 rb).2 := by
  by_cases hc : e.config.ENABLE_CACHE = true
  · simp [generate_speech, hne, hc, hmiss hc]
  · simp [generate_speech, hne, hc]

/-- Claim C9 — the robotic-cloud language mapping: the gTTS code map is the
identity on its nine keys and en on every other code; the four supported
languages pa, ur, or and as are therefore synthesized with the English code
by this provider; and any gTTS invocation recorded by generate_speech
carries exactly this mapped language code. -/
theorem C9_gtts_lang_mapping :
    (∀ l : Str, _get_gtts_lang_code l =
      if l ∈ gtts_lang_map.map Prod.fst then l else "en".data) ∧
    (∀ c ∈ ["pa".data, "ur".data, "or".data, "as".data],
      (SUPPORTED_LANGUAGES.lookup c).isSome = true ∧
      _get_gtts_lang_code c = "en".data) ∧
    (∀ (e : Engine) (w : World) (text0 language speedRepr : Str)
      (voice_id speaker_wav : Option Str) (op0 : Option Str) (rb : Bool)
      (l : Str),
      Ev.invoke .gtts l ∈
        (generate_speech e w text0 language speedRepr voice_id speaker_wav
          op0 rb).2 →
      l = _get_gtts_lang_code language) := by
  refine ⟨?_, by decide, ?_⟩
  · intro l
    simp only [_get_gtts_lang_code, gtts_lang_map, List.lookup, List.map]
    split_ifs with h
    · simp only [List.mem_cons, List.not_mem_nil, or_false] at h
      rcases h with h|h|h|h|h|h|h|h|h <;> subst h <;> rfl
    · simp only [List.mem_cons, List.not_mem_nil, or_false, not_or] at h
      obtain ⟨h1,h2,h3,h4,h5,h6,h7,h8,h9⟩ := h
      rw [show (l == ['b','n']) = false from beq_eq_false_iff_ne.mpr h1,
          show (l == ['h','i']) = false from beq_eq_false_iff_ne.mpr h2,
          show (l == ['m','r']) = false from beq_eq_false_iff_ne.mpr h3,
          show (l == ['g','u']) = false from beq_eq_false_iff_ne.mpr h4,
          show (l == ['k','n']) = false from beq_eq_false_iff_ne.mpr h5,
          show (l == ['m','l']) = false from beq_eq_false_iff_ne.mpr h6,
          show (l == ['t','a']) = false from beq_eq_false_iff_ne.mpr h7,
          show (l == ['t','e']) = false from beq_eq_false_iff_ne.mpr h8,
          show (l == ['e','n']) = false from beq_eq_false_iff_ne.mpr h9]
      rfl
  · intro e w text0 language speedRepr voice_id speaker_wav op0 rb l h
    by_cases hv : (text0 = [] || pyStrip text0 = []) = true
    · simp [generate_speech, hv] at h
    · rcases hw : w.cache (_get_cache_path (normalize_text text0 language)
        language voice_id speedRepr) with _ | b
      · by_cases hc : e.config.ENABLE_CACHE = true
        · simp only [generate_speech, eq_false_of_ne_true hv,
            Bool.false_eq_true, if_false, hc, if_true, hw,
            List.mem_cons] at h
          rcases h with h | h
          · simp at h
          · exact gtts_arg_afterCache _ _ _ _ _ _ _ _ _ _ h
        · simp only [generate_speech, eq_false_of_ne_true hv,
            Bool.false_eq_true, if_false, hc] at h
          exact gtts_arg_afterCache _ _ _ _ _ _ _ _ _ _ h
      · by_cases hc : e.config.ENABLE_CACHE = true
        · rw [generate_speech_hit_trace e w text0 language speedRepr voice_id
            speaker_wav op0 rb b (eq_false_of_ne_true hv) hc hw] at h
          simp at h
        · simp only [generate_speech, eq_false_of_ne_true hv,
            Bool.false_eq_true, if_false, hc] at h
          exact gtts_arg_afterCache _ _ _ _ _ _ _ _ _ _ h

/-- Witness for C9 at concrete inputs. -/
theorem C9_gtts_lang_mapping_witness :
    _get_gtts_lang_code "pa".data = "en".data ∧
    _get_gtts_lang_code "bn".data = "bn".data := by
  refine ⟨(C9_gtts_lang_mapping.2.1 ("pa".data) (by decide)).2, ?_⟩
  rw [C9_gtts_lang_mapping.1 ("bn".data)]
  decide

/-! ## C3: the cache fingerprint -/

lemma append_delim_inj (d : Char) (a1 b1 a2 b2 : Str) (h1 : d ∉ a1)
    (h2 : d ∉ a2) (h : a1 ++ d :: b1 = a2 ++ d :: b2) :
    a1 = a2 ∧ b1 = b2 := by
  induction a1 generalizing a2 with
  | nil =>
    cases a2 with
    | nil => simpa using h
    | cons x xs =>
      simp only [List.nil_append, List.cons_append, List.cons.injEq] at h
      exact absurd (h.1 ▸ List.mem_cons_self x xs) h2
  | cons x xs ih =>
    cases a2 with
    | nil =>
      simp only [List.nil_append, List.cons_append, List.cons.injEq] at h
      exact absurd (h.1.symm ▸ List.mem_cons_self x xs) h1
    | cons y ys =>
      simp only [List.cons_append, List.cons.injEq] at h
      have := ih ys (fun hm => h1 (List.mem_cons_of_mem _ hm))
        (fun hm => h2 (List.mem_cons_of_mem _ hm)) h.2
      exact ⟨by rw [h.1, this.1], this.2⟩

/-- Claim C3, counterexample: two distinct (text, language, voiceSelector,
speed) tuples whose key strings — and hence fingerprints — coincide,
because the delimiter character occurs inside the text field. -/
theorem C3_fingerprint_counterexample :
    _get_cache_path ("a|en".data) ("x".data) (some ("v".data)) ("1.0".data) =
      _get_cache_path ("a".data) ("en|x".data) (some ("v".data)) ("1.0".data) ∧
    "a|en".data ≠ "a".data := by
  decide

/-- Claim C3 as amended: the fingerprint is a pure function of the four
fields (definitionally, in this model), and the key string is injective on
tuples whose rendered fields are free of the delimiter character; when a
field contains the delimiter — which ordinary user text may — distinct
tuples produce identical key strings, hence identical digests. -/
theorem C3_fingerprint_injective_without_delimiter
    (t1 l1 s1 t2 l2 s2 : Str) (v1 v2 : Option Str)
    (ht1 : ('|' : Char) ∉ t1) (ht2 : ('|' : Char) ∉ t2)
    (hl1 : ('|' : Char) ∉ l1) (hl2 : ('|' : Char) ∉ l2)
    (hv1 : ('|' : Char) ∉ pyOptionStr v1) (hv2 : ('|' : Char) ∉ pyOptionStr v2)
    (heq : _get_cache_path t1 l1 v1 s1 = _get_cache_path t2 l2 v2 s2) :
    t1 = t2 ∧ l1 = l2 ∧ pyOptionStr v1 = pyOptionStr v2 ∧ s1 = s2 := by
  have h0 := heq
  simp only [_get_cache_path] at h0
  have hkey := List.append_cancel_right h0
  simp only [List.append_assoc, List.singleton_append] at hkey
  obtain ⟨het, hrest⟩ := append_delim_inj '|' _ _ _ _ ht1 ht2 hkey
  obtain ⟨hel, hrest2⟩ := append_delim_inj '|' _ _ _ _ hl1 hl2 hrest
  obtain ⟨hev, hes⟩ := append_delim_inj '|' _ _ _ _ hv1 hv2 hrest2
  exact ⟨het, hel, hev, hes⟩

/-! ## C2: over-length validation vs cache lookup -/

lemma afterCache_too_long (e : Engine) (w : World) (text language : Str)
    (speedRepr : Str) (voice_id speaker_wav : Option Str) (op0 : Option Str)
    (rb : Bool) (hlen : e.config.MAX_TEXT_LENGTH < text.length) :
    afterCache e w text language speedRepr voice_id speaker_wav op0 rb =
      (.valueError .tooLong, []) := by
  simp [afterCache, hlen]

lemma replicate_a_ne_nil_bool (n : Nat) (h : 0 < n) :
    ((List.replicate n 'a' = ([] : Str)) ||
      (pyStrip (List.replicate n 'a') = ([] : Str))) = false := by
  rw [pyStrip_replicate_a]
  have hnil : (List.replicate n 'a' : Str) ≠ [] := by
    intro hh
    have hlen := congrArg List.length hh
    rw [List.length_replicate] at hlen
    simp at hlen
    omega
  simp [hnil]

/-- Claim C2, counterexample: a request of 5001 repetitions of the letter
a (raw and normalized length 5001 > MAX_TEXT_LENGTH = 5000) against a
cache state that contains an entry under the request's fingerprint is
answered from the cache — no validation error is raised at all, because
generate_speech computes the fingerprint and consults the cache before
checking the length bound. -/
theorem C2_validation_counterexample :
    defaultConfig.MAX_TEXT_LENGTH < (List.replicate 5001 'a').length ∧
    (generate_speech
      { xtts := false, edge_tts_available := false,
        offline_available := false, config := defaultConfig }
      { cache := fun _ => some [1], speaker_wav_exists := false,
        xttsResult := none, edgeResult := none, gttsResult := none,
        offlineResult := none, pydub_available := false, now := 0 }
      (List.replicate 5001 'a') ("en".data) ("1.0".data) none none none
      true).1 = .bytes [1] "audio/mpeg" := by
  constructor
  · rw [List.length_replicate]; norm_num [defaultConfig]
  · exact generate_speech_hit_bytes _ _ _ _ _ _ _ _ [1]
      (replicate_a_ne_nil_bool 5001 (by norm_num))
      rfl rfl

/-- Claim C2 as amended: when the normalized text exceeds
MAX_TEXT_LENGTH and the fingerprint misses the cache (or caching is
disabled), generate_speech raises the over-length ValueError and no
provider is invoked and nothing is written to the cache; but the check
runs on the normalized text only after normalization, fingerprint
computation and cache lookup — with caching enabled the trace of the
failing call is exactly the cache lookup. -/
theorem C2_length_check_after_cache_lookup (e : Engine) (w : World)
    (text0 language speedRepr : Str) (voice_id speaker_wav : Option Str)
    (op0 : Option Str) (rb : Bool)
    (hne : (text0 = [] || pyStrip text0 = []) = false)
    (hmiss : e.config.ENABLE_CACHE = true →
      w.cache (_get_cache_path (normalize_text text0 language) language
        voice_id speedRepr) = none)
    (hlen : e.config.MAX_TEXT_LENGTH <
      (normalize_text text0 language).length) :
    (generate_speech e w text0 language speedRepr voice_id speaker_wav op0
      rb).1 = .valueError .tooLong ∧
    invoked (generate_speech e w text0 language speedRepr voice_id
      speaker_wav op0 rb).2 = [] ∧
    (generate_speech e w text0 language speedRepr voice_id speaker_wav op0
      rb).2.all (fun ev => !isCacheWrite ev) = true ∧
    (e.config.ENABLE_CACHE = true →
      (generate_speech e w text0 language speedRepr voice_id speaker_wav op0
        rb).2 = [.cacheLookup (_get_cache_path (normalize_text text0 language)
          language voice_id speedRepr)]) := by
  obtain ⟨h1, h2⟩ := generate_speech_miss e w text0 language speedRepr
    voice_id speaker_wav op0 rb hne hmiss
  have ha := afterCache_too_long e w (normalize_text text0 language) language
    speedRepr voice_id speaker_wav op0 rb hlen
  rw [ha] at h1 h2
  refine ⟨h1, ?_, ?_, ?_⟩
  · rw [h2]; cases hc : e.config.ENABLE_CACHE <;> simp [invoked]
  · rw [h2]; cases hc : e.config.ENABLE_CACHE <;> simp [isCacheWrite]
  · intro hc; rw [h2, if_pos hc, List.append_nil]

/-- Witness for the amended C2 at a concrete engine (length bound 3) and
request (four letters). -/
theorem C2_length_check_witness :
    (generate_speech
      { xtts := false, edge_tts_available := false,
        offline_available := false,
        config := { MAX_TEXT_LENGTH := 3, ENABLE_CACHE := true } }
      { cache := fun _ => none, speaker_wav_exists := false,
        xttsResult := none, edgeResult := none, gttsResult := none,
        offlineResult := none, pydub_available := false, now := 0 }
      (List.replicate 4 'a') ("en".data) ("1.0".data) none none none
      true).1 = .valueError .tooLong :=
  (C2_length_check_after_cache_lookup _ _ _ _ _ _ _ _ _
    (by rw [pyStrip_replicate_a]; simp)
    (fun _ => rfl)
    (by rw [normalize_replicate_a]; simp)).1

/-! ## C5: cache hits invoke no provider -/

lemma process_trace_eq (e : Engine) (w : World) (text lang_code : Str)
    (speedRepr gender : Str) (st : Bool) (h0 : ¬ text = [])
    (h1 : ¬ e.config.MAX_TEXT_LENGTH < text.length) :
    (process_generate_request e w text lang_code speedRepr gender st).2 =
      (generate_speech e w text lang_code speedRepr
        (get_voice_id lang_code gender) none none true).2 := by
  unfold process_generate_request
  rw [if_neg h0, if_neg h1]
  dsimp only
  split <;> rfl

/-- Claim C5: with caching enabled, a request whose fingerprint has a
cache entry is answered immediately from the cache — in bytes mode the
cached payload is returned with mimetype audio/mpeg — and no provider is
invoked in any return mode; at the HTTP layer the same holds even when
streaming was requested, because the streaming attempt fails before the
first chunk and falls back to the same buffered engine call. -/
theorem C5_cache_hit_no_provider (e : Engine) (w : World)
    (text0 language speedRepr : Str) (voice_id speaker_wav : Option Str)
    (op0 : Option Str) (rb : Bool) (b : Bytes)
    (hne : (text0 = [] || pyStrip text0 = []) = false)
    (hc : e.config.ENABLE_CACHE = true)
    (hhit : w.cache (_get_cache_path (normalize_text text0 language) language
      voice_id speedRepr) = some b) :
    (generate_speech e w text0 language speedRepr voice_id speaker_wav op0
      true).1 = .bytes b "audio/mpeg" ∧
    invoked (generate_speech e w text0 language speedRepr voice_id
      speaker_wav op0 rb).2 = [] ∧
    (∀ gender stream : Str, ∀ st : Bool,
      voice_id = get_voice_id language gender →
      invoked (process_generate_request e w text0 language speedRepr gender
        st).2 = []) := by
  refine ⟨generate_speech_hit_bytes e w text0 language speedRepr voice_id
    speaker_wav op0 b hne hc hhit, ?_, ?_⟩
  · rw [generate_speech_hit_trace e w text0 language speedRepr voice_id
      speaker_wav op0 rb b hne hc hhit]
    rfl
  · intro gender stream st hv
    by_cases h0 : text0 = []
    · simp [process_generate_request, h0, invoked]
    · by_cases h1 : e.config.MAX_TEXT_LENGTH < text0.length
      · simp [process_generate_request, h0, h1, invoked]
      · rw [process_trace_eq e w text0 language speedRepr gender st h0 h1,
          generate_speech_hit_trace e w text0 language speedRepr
            (get_voice_id language gender) none none true b hne hc
            (hv ▸ hhit)]
        rfl

/-- Witness for C5 at a concrete request. -/
theorem C5_cache_hit_witness :
    (generate_speech
      { xtts := true, edge_tts_available := true,
        offline_available := true, config := defaultConfig }
      { cache := fun _ => some [9], speaker_wav_exists := true,
        xttsResult := some [1], edgeResult := some [2], gttsResult := some [3],
        offlineResult := some [4], pydub_available := true, now := 0 }
      (List.replicate 2 'a') ("en".data) ("1.0".data)
      (get_voice_id ("en".data) ("female".data)) none none
      true).1 = .bytes [9] "audio/mpeg" ∧
    invoked (process_generate_request
      { xtts := true, edge_tts_available := true,
        offline_available := true, config := defaultConfig }
      { cache := fun _ => some [9], speaker_wav_exists := true,
        xttsResult := some [1], edgeResult := some [2], gttsResult := some [3],
        offlineResult := some [4], pydub_available := true, now := 0 }
      (List.replicate 2 'a') ("en".data) ("1.0".data) ("female".data)
      true).2 = [] := by
  have h := C5_cache_hit_no_provider
    { xtts := true, edge_tts_available := true,
      offline_available := true, config := defaultConfig }
    { cache := fun _ => some [9], speaker_wav_exists := true,
      xttsResult := some [1], edgeResult := some [2], gttsResult := some [3],
      offlineResult := some [4], pydub_available := true, now := 0 }
    (List.replicate 2 'a') ("en".data) ("1.0".data)
    (get_voice_id ("en".data) ("female".data)) none none true [9]
    (by rw [pyStrip_replicate_a]; simp) rfl rfl
  exact ⟨h.1, h.2.2 ("female".data) [] true rfl⟩

/-! ## C1: the provider chain refines the spec chain -/

lemma invoked_append (a b : List Ev) :
    invoked (a ++ b) = invoked a ++ invoked b := by
  simp [invoked, List.filterMap_append]

lemma tryOffline_char (e : Engine) (w : World) (op : Str) (rb : Bool) :
    invoked (tryOffline e w op rb).2 =
      specChainTrace w (if e.offline_available then [.offline] else []) ∧
    (rb = true → matchesOutcome (tryOffline e w op rb).1
      (specChainOutcome w (if e.offline_available then [.offline] else []))) := by
  cases hoa : e.offline_available <;> rcases hor : w.offlineResult with _ | b <;>
    cases rb <;>
    simp [tryOffline, hoa, hor, invoked, specChainTrace, specChainOutcome,
      specSucceeds, matchesOutcome]

lemma specChainTrace_cons_fail (w : World) (p : Provider)
    (ps : List Provider) (h : specSucceeds w p = false) :
    specChainTrace w (p :: ps) = p :: specChainTrace w ps := by
  simp [specChainTrace, h]

lemma specChainOutcome_cons_fail (w : World) (p : Provider)
    (ps : List Provider) (h : specSucceeds w p = false) :
    specChainOutcome w (p :: ps) = specChainOutcome w ps := by
  simp [specChainOutcome, h]

lemma tryGtts_char (e : Engine) (w : World) (language : Str)
    (op : Option Str) (rb : Bool) :
    invoked (tryGtts e w language op rb).2 =
      specChainTrace w
        (Provider.gtts :: (if e.offline_available then [.offline] else [])) ∧
    (rb = true → matchesOutcome (tryGtts e w language op rb).1
      (specChainOutcome w
        (Provider.gtts :: (if e.offline_available then [.offline] else [])))) := by
  rcases hg : w.gttsResult with _ | b
  · have hf : specSucceeds w Provider.gtts = false := by simp [specSucceeds, hg]
    obtain ⟨h1, h2⟩ := tryOffline_char e w (op.getD []) rb
    rw [specChainTrace_cons_fail w _ _ hf, specChainOutcome_cons_fail w _ _ hf]
    refine ⟨?_, fun hrb => ?_⟩
    · simp only [tryGtts, hg]
      rw [show invoked (Ev.invoke .gtts (_get_gtts_lang_code language) ::
        (tryOffline e w (op.getD []) rb).2) = Provider.gtts ::
          invoked (tryOffline e w (op.getD []) rb).2 from rfl]
      rw [h1]
    · simp only [tryGtts, hg]
      exact h2 hrb
  · refine ⟨?_, fun hrb => ?_⟩
    · rw [tryGtts_trace_some e w language op rb b hg]
      simp [invoked, specChainTrace, specSucceeds, hg]
    · subst hrb
      simp [tryGtts, hg, specChainOutcome, specSucceeds, matchesOutcome]

lemma tryEdge_char (e : Engine) (w : World) (text language : Str)
    (speedRepr : Str) (voice_id : Option Str) (op : Option Str) (rb : Bool) :
    invoked (tryEdge e w text language speedRepr voice_id op rb).2 =
      specChainTrace w
        ((if optTruthy voice_id && e.edge_tts_available then [.edge] else []) ++
          (Provider.gtts ::
            (if e.offline_available then [.offline] else []))) ∧
    (rb = true →
      matchesOutcome (tryEdge e w text language speedRepr voice_id op rb).1
        (specChainOutcome w
          ((if optTruthy voice_id && e.edge_tts_available then [.edge]
            else []) ++
            (Provider.gtts ::
              (if e.offline_available then [.offline] else []))))) := by
  obtain ⟨hg1, hg2⟩ := tryGtts_char e w language op rb
  by_cases ha : (optTruthy voice_id && e.edge_tts_available) = true
  · rw [ha]
    rcases he : w.edgeResult with _ | b
    · have hf : specSucceeds w Provider.edge = false := by
        simp [specSucceeds, he]
      rw [if_pos rfl, List.singleton_append,
        specChainTrace_cons_fail w _ _ hf, specChainOutcome_cons_fail w _ _ hf]
      refine ⟨?_, fun hrb => ?_⟩
      · simp only [tryEdge, ha, if_true, he]
        rw [show invoked (Ev.invoke .edge (voice_id.getD []) ::
          (tryGtts e w language op rb).2) = Provider.edge ::
            invoked (tryGtts e w language op rb).2 from rfl]
        rw [hg1]
      · simp only [tryEdge, ha, if_true, he]
        exact hg2 hrb
    · by_cases hb : b = []
      · subst hb
        have hf : specSucceeds w Provider.edge = false := by
          simp [specSucceeds, he]
        rw [if_pos rfl, List.singleton_append,
          specChainTrace_cons_fail w _ _ hf,
          specChainOutcome_cons_fail w _ _ hf]
        refine ⟨?_, fun hrb => ?_⟩
        · simp only [tryEdge, ha, if_true, he, if_pos rfl]
          rw [show invoked (Ev.invoke .edge (voice_id.getD []) ::
            (tryGtts e w language op rb).2) = Provider.edge ::
              invoked (tryGtts e w language op rb).2 from rfl]
          rw [hg1]
        · simp only [tryEdge, ha, if_true, he, if_pos rfl]
          exact hg2 hrb
      · refine ⟨?_, fun hrb => ?_⟩
        · cases rb <;>
            simp [tryEdge, ha, he, hb, invoked, List.singleton_append,
              specChainTrace, specSucceeds, matchesOutcome] <;>
            split_ifs <;> simp [invoked]
        · subst hrb
          simp [tryEdge, ha, he, hb, List.singleton_append, specChainOutcome,
            specSucceeds, matchesOutcome]
  · rw [eq_false_of_ne_true ha]
    refine ⟨?_, fun hrb => ?_⟩
    · simp only [tryEdge, eq_false_of_ne_true ha, Bool.false_eq_true,
        if_false, List.nil_append]
      exact hg1
    · simp only [tryEdge, eq_false_of_ne_true ha, Bool.false_eq_true,
        if_false, List.nil_append]
      exact hg2 hrb

lemma tryXtts_char (e : Engine) (w : World) (text language : Str)
    (speedRepr : Str) (voice_id speaker_wav : Option Str) (op : Option Str)
    (rb : Bool) :
    invoked (tryXtts e w text language speedRepr voice_id speaker_wav op
        rb).2 =
      specChainTrace w (specApplicable e w voice_id speaker_wav) ∧
    (rb = true →
      matchesOutcome
        (tryXtts e w text language speedRepr voice_id speaker_wav op rb).1
        (specChainOutcome w (specApplicable e w voice_id speaker_wav))) := by
  obtain ⟨he1, he2⟩ := tryEdge_char e w text language speedRepr voice_id op rb
  have hlist : specApplicable e w voice_id speaker_wav =
      (if e.xtts && optTruthy speaker_wav && w.speaker_wav_exists then
        [Provider.xtts] else []) ++
      ((if optTruthy voice_id && e.edge_tts_available then [.edge] else []) ++
        (Provider.gtts ::
          (if e.offline_available then [.offline] else []))) := by
    simp [specApplicable, List.append_assoc]
  by_cases ha : (e.xtts && optTruthy speaker_wav && w.speaker_wav_exists) =
      true
  · rw [hlist, ha, if_pos rfl]
    rcases hx : w.xttsResult with _ | b
    · have hf : specSucceeds w Provider.xtts = false := by
        simp [specSucceeds, hx]
      rw [List.singleton_append, specChainTrace_cons_fail w _ _ hf,
        specChainOutcome_cons_fail w _ _ hf]
      refine ⟨?_, fun hrb => ?_⟩
      · simp only [tryXtts, ha, if_true, hx]
        rw [show invoked (Ev.invoke .xtts language ::
          (tryEdge e w text language speedRepr voice_id op rb).2) =
            Provider.xtts ::
              invoked (tryEdge e w text language speedRepr voice_id op rb).2
          from rfl]
        rw [he1]
      · simp only [tryXtts, ha, if_true, hx]
        exact he2 hrb
    · refine ⟨?_, fun hrb => ?_⟩
      · cases rb <;>
          simp [tryXtts, ha, hx, invoked, List.singleton_append,
            specChainTrace, specSucceeds] <;>
          split_ifs <;> simp [invoked]
      · subst hrb
        simp [tryXtts, ha, hx, List.singleton_append, specChainOutcome,
          specSucceeds, matchesOutcome]
  · rw [hlist, eq_false_of_ne_true ha]
    refine ⟨?_, fun hrb => ?_⟩
    · simp only [tryXtts, eq_false_of_ne_true ha, Bool.false_eq_true,
        if_false, List.nil_append]
      exact he1
    · simp only [tryXtts, eq_false_of_ne_true ha, Bool.false_eq_true,
        if_false, List.nil_append]
      exact he2 hrb

/-- Claim C1: for every request that reaches the provider chain (valid
text, cache miss or caching disabled, length within bound), the sequence
of invoked providers is exactly the spec chain — the applicable providers
in the fixed priority order voice-cloning, neural-cloud, robotic-cloud,
offline, up to and including the first success — and in bytes mode the
returned audio is the first succeeding provider's output (a terminal
synthesis error if every applicable provider fails). -/
theorem C1_provider_chain_order (e : Engine) (w : World)
    (text0 language speedRepr : Str) (voice_id speaker_wav : Option Str)
    (op0 : Option Str) (rb : Bool)
    (hne : (text0 = [] || pyStrip text0 = []) = false)
    (hmiss : e.config.ENABLE_CACHE = true →
      w.cache (_get_cache_path (normalize_text text0 language) language
        voice_id speedRepr) = none)
    (hlen : ¬ e.config.MAX_TEXT_LENGTH <
      (normalize_text text0 language).length) :
    invoked (generate_speech e w text0 language speedRepr voice_id
        speaker_wav op0 rb).2 =
      specChainTrace w (specApplicable e w voice_id speaker_wav) ∧
    (rb = true →
      matchesOutcome
        (generate_speech e w text0 language speedRepr voice_id speaker_wav
          op0 rb).1
        (specChainOutcome w (specApplicable e w voice_id speaker_wav))) := by
  obtain ⟨h1, h2⟩ := generate_speech_miss e w text0 language speedRepr
    voice_id speaker_wav op0 rb hne hmiss
  have hac1 : (afterCache e w (normalize_text text0 language) language
      speedRepr voice_id speaker_wav op0 rb).1 =
      (tryXtts e w (normalize_text text0 language) language speedRepr
        voice_id speaker_wav
        (if op0 = none && !rb then
          some (genOutputPath e w language speaker_wav) else op0) rb).1 := by
    rw [afterCache, if_neg hlen]
  have hac2 : (afterCache e w (normalize_text text0 language) language
      speedRepr voice_id speaker_wav op0 rb).2 =
      (tryXtts e w (normalize_text text0 language) language speedRepr
        voice_id speaker_wav
        (if op0 = none && !rb then
          some (genOutputPath e w language speaker_wav) else op0) rb).2 := by
    rw [afterCache, if_neg hlen]
  obtain ⟨hx1, hx2⟩ := tryXtts_char e w (normalize_text text0 language)
    language speedRepr voice_id speaker_wav
    (if op0 = none && !rb then
      some (genOutputPath e w language speaker_wav) else op0) rb
  refine ⟨?_, fun hrb => ?_⟩
  · rw [h2, invoked_append, hac2, hx1]
    cases hc : e.config.ENABLE_CACHE <;> simp [invoked]
  · rw [h1, hac1]
    exact hx2 hrb

/-- Witness for C1 at a concrete request: voice cloning unavailable,
neural provider applicable but failing, robotic provider succeeding —
exactly voice-cloning skipped, edge then gtts invoked, gtts audio
returned, offline never invoked. -/
theorem C1_provider_chain_order_witness :
    invoked (generate_speech
      { xtts := false, edge_tts_available := true,
        offline_available := true, config := defaultConfig }
      { cache := fun _ => none, speaker_wav_exists := false,
        xttsResult := none, edgeResult := none, gttsResult := some [3],
        offlineResult := some [4], pydub_available := true, now := 0 }
      (List.replicate 2 'a') ("en".data) ("1.0".data) (some ("v".data))
      none none true).2 = [Provider.edge, Provider.gtts] ∧
    (generate_speech
      { xtts := false, edge_tts_available := true,
        offline_available := true, config := defaultConfig }
      { cache := fun _ => none, speaker_wav_exists := false,
        xttsResult := none, edgeResult := none, gttsResult := some [3],
        offlineResult := some [4], pydub_available := true, now := 0 }
      (List.replicate 2 'a') ("en".data) ("1.0".data) (some ("v".data))
      none none true).1 = .bytes [3] "audio/mpeg" := by
  have h := C1_provider_chain_order
    { xtts := false, edge_tts_available := true,
      offline_available := true, config := defaultConfig }
    { cache := fun _ => none, speaker_wav_exists := false,
      xttsResult := none, edgeResult := none, gttsResult := some [3],
      offlineResult := some [4], pydub_available := true, now := 0 }
    (List.replicate 2 'a') ("en".data) ("1.0".data) (some ("v".data))
    none none true
    (by rw [pyStrip_replicate_a]; simp)
    (fun _ => rfl)
    (by rw [normalize_replicate_a, List.length_replicate]
        norm_num [defaultConfig])
  refine ⟨?_, ?_⟩
  · rw [h.1]; rfl
  · have h2 := h.2 rfl
    simpa [specApplicable, specChainOutcome, specSucceeds, optTruthy,
      matchesOutcome] using h2

/-! ## Outcome helper lemmas for the chain (shared by C4, C7, C10) -/

lemma chain_xtts_success (e : Engine) (w : World) (text language : Str)
    (speedRepr : Str) (voice_id speaker_wav : Option Str) (op : Option Str)
    (ha : (e.xtts && optTruthy speaker_wav && w.speaker_wav_exists) = true)
    (b : Bytes) (hx : w.xttsResult = some b) :
    tryXtts e w text language speedRepr voice_id speaker_wav op true =
      (.bytes b "audio/wav",
        Ev.invoke .xtts language ::
          (if e.config.ENABLE_CACHE then
            [Ev.cacheWrite (_get_cache_path text language voice_id speedRepr)
              b] else [])) := by
  simp [tryXtts, ha, hx]

lemma chain_edge_success (e : Engine) (w : World) (text language : Str)
    (speedRepr : Str) (voice_id speaker_wav : Option Str) (op : Option Str)
    (hxa : (e.xtts && optTruthy speaker_wav && w.speaker_wav_exists) = false ∨
      w.xttsResult = none)
    (hea : (optTruthy voice_id && e.edge_tts_available) = true)
    (b : Bytes) (hb : b ≠ []) (he : w.edgeResult = some b) :
    (tryXtts e w text language speedRepr voice_id speaker_wav op true).1 =
      .bytes b "audio/mpeg" ∧
    (e.config.ENABLE_CACHE = true →
      Ev.cacheWrite (_get_cache_path text language voice_id speedRepr) b ∈
        (tryXtts e w text language speedRepr voice_id speaker_wav op
          true).2) := by
  rcases hxa with hxa | hxa
  · constructor
    · simp [tryXtts, hxa, tryEdge, hea, he, hb]
    · intro hc
      simp [tryXtts, hxa, tryEdge, hea, he, hb, hc]
  · by_cases ha : (e.xtts && optTruthy speaker_wav && w.speaker_wav_exists) =
        true
    · constructor
      · simp [tryXtts, ha, hxa, tryEdge, hea, he, hb]
      · intro hc
        simp [tryXtts, ha, hxa, tryEdge, hea, he, hb, hc]
    · constructor
      · simp [tryXtts, eq_false_of_ne_true ha, tryEdge, hea, he, hb]
      · intro hc
        simp [tryXtts, eq_false_of_ne_true ha, tryEdge, hea, he, hb, hc]

lemma chain_gtts_success (e : Engine) (w : World) (text language : Str)
    (speedRepr : Str) (voice_id speaker_wav : Option Str) (op : Option Str)
    (hxa : (e.xtts && optTruthy speaker_wav && w.speaker_wav_exists) = false ∨
      w.xttsResult = none)
    (hea : (optTruthy voice_id && e.edge_tts_available) = false ∨
      w.edgeResult = none ∨ w.edgeResult = some [])
    (b : Bytes) (hg : w.gttsResult = some b) :
    (tryXtts e w text language speedRepr voice_id speaker_wav op true).1 =
      .bytes b "audio/mpeg" ∧
    (tryXtts e w text language speedRepr voice_id speaker_wav op
      true).2.all (fun ev => !isCacheWrite ev) = true := by
  have hedge : ∀ evs : List Ev,
      (tryGtts e w language op true).2 = evs →
      (tryGtts e w language op true).1 = .bytes b "audio/mpeg" ∧
      evs.all (fun ev => !isCacheWrite ev) = true := by
    intro evs hevs
    rw [← hevs, tryGtts_trace_some e w language op true b hg]
    constructor
    · simp [tryGtts, hg]
    · simp [isCacheWrite]
  have hstep : (tryEdge e w text language speedRepr voice_id op true).1 =
      .bytes b "audio/mpeg" ∧
      (tryEdge e w text language speedRepr voice_id op true).2.all
        (fun ev => !isCacheWrite ev) = true := by
    rcases hea with hea | hea | hea
    · rw [show tryEdge e w text language speedRepr voice_id op true =
        tryGtts e w language op true from by
          simp [tryEdge, hea]]
      exact hedge _ rfl
    · obtain ⟨h1, h2⟩ := hedge _ rfl
      by_cases hav : (optTruthy voice_id && e.edge_tts_available) = true
      · constructor
        · simp [tryEdge, hav, hea, h1, tryGtts, hg]
        · rw [show (tryEdge e w text language speedRepr voice_id op true).2 =
            Ev.invoke .edge (voice_id.getD []) ::
              (tryGtts e w language op true).2 from by
                simp [tryEdge, hav, hea]]
          simp only [List.all_cons, h2, Bool.and_true]
          rfl
      · rw [show tryEdge e w text language speedRepr voice_id op true =
          tryGtts e w language op true from by
            simp [tryEdge, eq_false_of_ne_true hav]]
        exact hedge _ rfl
    · obtain ⟨h1, h2⟩ := hedge _ rfl
      by_cases hav : (optTruthy voice_id && e.edge_tts_available) = true
      · constructor
        · simp [tryEdge, hav, hea, h1, tryGtts, hg]
        · rw [show (tryEdge e w text language speedRepr voice_id op true).2 =
            Ev.invoke .edge (voice_id.getD []) ::
              (tryGtts e w language op true).2 from by
                simp [tryEdge, hav, hea]]
          simp only [List.all_cons, h2, Bool.and_true]
          rfl
      · rw [show tryEdge e w text language speedRepr voice_id op true =
          tryGtts e w language op true from by
            simp [tryEdge, eq_false_of_ne_true hav]]
        exact hedge _ rfl
  rcases hxa with hxa | hxa
  · rw [show tryXtts e w text language speedRepr voice_id speaker_wav op
      true = tryEdge e w text language speedRepr voice_id op true from by
        simp [tryXtts, hxa]]
    exact hstep
  · by_cases ha : (e.xtts && optTruthy speaker_wav && w.speaker_wav_exists) =
        true
    · constructor
      · simp only [tryXtts, ha, if_true, hxa]
        exact hstep.1
      · rw [show (tryXtts e w text language speedRepr voice_id speaker_wav op
          true).2 = Ev.invoke .xtts language ::
            (tryEdge e w text language speedRepr voice_id op true).2 from by
              simp [tryXtts, ha, hxa]]
        simp only [List.all_cons, hstep.2, Bool.and_true]
        rfl
    · rw [show tryXtts e w text language speedRepr voice_id speaker_wav op
        true = tryEdge e w text language speedRepr voice_id op true from by
          simp [tryXtts, eq_false_of_ne_true ha]]
      exact hstep

lemma chain_offline_success (e : Engine) (w : World) (text language : Str)
    (speedRepr : Str) (voice_id speaker_wav : Option Str) (op : Option Str)
    (hxa : (e.xtts && optTruthy speaker_wav && w.speaker_wav_exists) = false ∨
      w.xttsResult = none)
    (hea : (optTruthy voice_id && e.edge_tts_available) = false ∨
      w.edgeResult = none ∨ w.edgeResult = some [])
    (hg : w.gttsResult = none) (hoa : e.offline_available = true)
    (b : Bytes) (ho : w.offlineResult = some b) :
    (tryXtts e w text language speedRepr voice_id speaker_wav op true).1 =
      .bytes b "audio/wav" ∧
    (tryXtts e w text language speedRepr voice_id speaker_wav op
      true).2.all (fun ev => !isCacheWrite ev) = true := by
  have hbase : tryGtts e w language op true =
      (.bytes b "audio/wav",
        [Ev.invoke .gtts (_get_gtts_lang_code language),
         Ev.invoke .offline []]) := by
    simp [tryGtts, hg, tryOffline, hoa, ho]
  have hstep : (tryEdge e w text language speedRepr voice_id op true).1 =
      .bytes b "audio/wav" ∧
      (tryEdge e w text language speedRepr voice_id op true).2.all
        (fun ev => !isCacheWrite ev) = true := by
    rcases hea with hea | hea | hea
    · rw [show tryEdge e w text language speedRepr voice_id op true =
        tryGtts e w language op true from by simp [tryEdge, hea]]
      rw [hbase]
      exact ⟨rfl, rfl⟩
    · by_cases hav : (optTruthy voice_id && e.edge_tts_available) = true
      · rw [show tryEdge e w text language speedRepr voice_id op true =
          ((tryGtts e w language op true).1,
            Ev.invoke .edge (voice_id.getD []) ::
              (tryGtts e w language op true).2) from by
                simp [tryEdge, hav, hea]]
        rw [hbase]
        exact ⟨rfl, rfl⟩
      · rw [show tryEdge e w text language speedRepr voice_id op true =
          tryGtts e w language op true from by
            simp [tryEdge, eq_false_of_ne_true hav]]
        rw [hbase]
        exact ⟨rfl, rfl⟩
    · by_cases hav : (optTruthy voice_id && e.edge_tts_available) = true
      · rw [show tryEdge e w text language speedRepr voice_id op true =
          ((tryGtts e w language op true).1,
            Ev.invoke .edge (voice_id.getD []) ::
              (tryGtts e w language op true).2) from by
                simp [tryEdge, hav, hea]]
        rw [hbase]
        exact ⟨rfl, rfl⟩
      · rw [show tryEdge e w text language speedRepr voice_id op true =
          tryGtts e w language op true from by
            simp [tryEdge, eq_false_of_ne_true hav]]
        rw [hbase]
        exact ⟨rfl, rfl⟩
  rcases hxa with hxa | hxa
  · rw [show tryXtts e w text language speedRepr voice_id speaker_wav op
      true = tryEdge e w text language speedRepr voice_id op true from by
        simp [tryXtts, hxa]]
    exact hstep
  · by_cases ha : (e.xtts && optTruthy speaker_wav && w.speaker_wav_exists) =
        true
    · constructor
      · simp only [tryXtts, ha, if_true, hxa]
        exact hstep.1
      · rw [show (tryXtts e w text language speedRepr voice_id speaker_wav op
          true).2 = Ev.invoke .xtts language ::
            (tryEdge e w text language speedRepr voice_id op true).2 from by
              simp [tryXtts, ha, hxa]]
        simp only [List.all_cons, hstep.2, Bool.and_true]
        rfl
    · rw [show tryXtts e w text language speedRepr voice_id speaker_wav op
        true = tryEdge e w text language speedRepr voice_id op true from by
          simp [tryXtts, eq_false_of_ne_true ha]]
      exact hstep

lemma chain_all_fail (e : Engine) (w : World) (text language : Str)
    (speedRepr : Str) (voice_id speaker_wav : Option Str) (op : Option Str)
    (rb : Bool)
    (hxa : (e.xtts && optTruthy speaker_wav && w.speaker_wav_exists) = false ∨
      w.xttsResult = none)
    (hea : (optTruthy voice_id && e.edge_tts_available) = false ∨
      w.edgeResult = none ∨ w.edgeResult = some [])
    (hg : w.gttsResult = none)
    (ho : e.offline_available = true → w.offlineResult = none) :
    (tryXtts e w text language speedRepr voice_id speaker_wav op rb).1 =
      .synthError (if e.offline_available then .offline else .gtts) := by
  have hbase : (tryGtts e w language op rb).1 =
      .synthError (if e.offline_available then .offline else .gtts) := by
    by_cases hoa : e.offline_available = true
    · simp [tryGtts, hg, tryOffline, hoa, ho hoa]
    · simp [tryGtts, hg, tryOffline, eq_false_of_ne_true hoa,
        eq_false_of_ne_true hoa]
  have hstep : (tryEdge e w text language speedRepr voice_id op rb).1 =
      .synthError (if e.offline_available then .offline else .gtts) := by
    rcases hea with hea | hea | hea
    · rw [show tryEdge e w text language speedRepr voice_id op rb =
        tryGtts e w language op rb from by simp [tryEdge, hea]]
      exact hbase
    · by_cases hav : (optTruthy voice_id && e.edge_tts_available) = true
      · simp only [tryEdge, hav, if_true, hea]
        exact hbase
      · rw [show tryEdge e w text language speedRepr voice_id op rb =
          tryGtts e w language op rb from by
            simp [tryEdge, eq_false_of_ne_true hav]]
        exact hbase
    · by_cases hav : (optTruthy voice_id && e.edge_tts_available) = true
      · simp only [tryEdge, hav, if_true, hea, if_pos rfl]
        exact hbase
      · rw [show tryEdge e w text language speedRepr voice_id op rb =
          tryGtts e w language op rb from by
            simp [tryEdge, eq_false_of_ne_true hav]]
        exact hbase
  rcases hxa with hxa | hxa
  · rw [show tryXtts e w text language speedRepr voice_id speaker_wav op rb =
      tryEdge e w text language speedRepr voice_id op rb from by
        simp [tryXtts, hxa]]
    exact hstep
  · by_cases ha : (e.xtts && optTruthy speaker_wav && w.speaker_wav_exists) =
        true
    · simp only [tryXtts, ha, if_true, hxa]
      exact hstep
    · rw [show tryXtts e w text language speedRepr voice_id speaker_wav op
        rb = tryEdge e w text language speedRepr voice_id op rb from by
          simp [tryXtts, eq_false_of_ne_true ha]]
      exact hstep

lemma afterCache_ok (e : Engine) (w : World) (text language : Str)
    (speedRepr : Str) (voice_id speaker_wav : Option Str) (op0 : Option Str)
    (rb : Bool) (hlen : ¬ e.config.MAX_TEXT_LENGTH < text.length) :
    afterCache e w text language speedRepr voice_id speaker_wav op0 rb =
      tryXtts e w text language speedRepr voice_id speaker_wav
        (if op0 = none && !rb then
          some (genOutputPath e w language speaker_wav) else op0) rb := by
  rw [afterCache, if_neg hlen]

/-! ## C7: terminal synthesis error when every applicable provider fails -/

/-- Claim C7: when a request reaches the provider chain and every
applicable provider fails — the terminal offline synthesizer included, or
with the offline synthesizer unavailable — generate_speech surfaces a
terminal synthesis error attributed to the last applicable provider
(offline when available, otherwise the robotic provider whose exception is
re-raised), and that error is distinct from every validation error. -/
theorem C7_terminal_synthesis_error (e : Engine) (w : World)
    (text0 language speedRepr : Str) (voice_id speaker_wav : Option Str)
    (op0 : Option Str) (rb : Bool)
    (hne : (text0 = [] || pyStrip text0 = []) = false)
    (hmiss : e.config.ENABLE_CACHE = true →
      w.cache (_get_cache_path (normalize_text text0 language) language
        voice_id speedRepr) = none)
    (hlen : ¬ e.config.MAX_TEXT_LENGTH <
      (normalize_text text0 language).length)
    (hall : ∀ p ∈ specApplicable e w voice_id speaker_wav,
      specSucceeds w p = false) :
    (generate_speech e w text0 language speedRepr voice_id speaker_wav op0
        rb).1 =
      .synthError (if e.offline_available then .offline else .gtts) ∧
    (∀ v : VErr,
      (generate_speech e w text0 language speedRepr voice_id speaker_wav op0
        rb).1 ≠ .valueError v) := by
  have hg : w.gttsResult = none := by
    have hgf := hall .gtts (by simp [specApplicable])
    rcases hgr : w.gttsResult with _ | b
    · rfl
    · simp [specSucceeds, hgr] at hgf
  have hxa : (e.xtts && optTruthy speaker_wav && w.speaker_wav_exists) =
      false ∨ w.xttsResult = none := by
    by_cases ha : (e.xtts && optTruthy speaker_wav && w.speaker_wav_exists) =
        true
    · right
      have hxf := hall .xtts (by simp [specApplicable, ha])
      rcases hxr : w.xttsResult with _ | b
      · rfl
      · simp [specSucceeds, hxr] at hxf
    · exact Or.inl (eq_false_of_ne_true ha)
  have hea : (optTruthy voice_id && e.edge_tts_available) = false ∨
      w.edgeResult = none ∨ w.edgeResult = some [] := by
    by_cases ha : (optTruthy voice_id && e.edge_tts_available) = true
    · have hef := hall .edge (by simp [specApplicable, ha])
      rcases her : w.edgeResult with _ | b
      · exact Or.inr (Or.inl rfl)
      · rcases hb : b with _ | ⟨x, xs⟩
        · subst hb
          exact Or.inr (Or.inr rfl)
        · subst hb
          simp [specSucceeds, her] at hef
    · exact Or.inl (eq_false_of_ne_true ha)
  have ho : e.offline_available = true → w.offlineResult = none := by
    intro hoa
    have hof := hall .offline (by simp [specApplicable, hoa])
    rcases hor : w.offlineResult with _ | b
    · rfl
    · simp [specSucceeds, hor] at hof
  obtain ⟨h1, _⟩ := generate_speech_miss e w text0 language speedRepr
    voice_id speaker_wav op0 rb hne hmiss
  rw [h1, afterCache_ok e w (normalize_text text0 language) language
    speedRepr voice_id speaker_wav op0 rb hlen]
  have hres := chain_all_fail e w (normalize_text text0 language) language
    speedRepr voice_id speaker_wav
    (if op0 = none && !rb then
      some (genOutputPath e w language speaker_wav) else op0) rb
    hxa hea hg ho
  exact ⟨hres, fun v => by rw [hres]; simp⟩

/-- Witness for C7: every provider applicable and failing at a concrete
request; the surfaced error is the offline provider's. -/
theorem C7_terminal_synthesis_error_witness :
    (generate_speech
      { xtts := true, edge_tts_available := true,
        offline_available := true, config := defaultConfig }
      { cache := fun _ => none, speaker_wav_exists := true,
        xttsResult := none, edgeResult := none, gttsResult := none,
        offlineResult := none, pydub_available := true, now := 0 }
      (List.replicate 2 'a') ("en".data) ("1.0".data) (some ("v".data))
      (some ("s.wav".data)) none true).1 = .synthError .offline := by
  have h := C7_terminal_synthesis_error
    { xtts := true, edge_tts_available := true,
      offline_available := true, config := defaultConfig }
    { cache := fun _ => none, speaker_wav_exists := true,
      xttsResult := none, edgeResult := none, gttsResult := none,
      offlineResult := none, pydub_available := true, now := 0 }
    (List.replicate 2 'a') ("en".data) ("1.0".data) (some ("v".data))
    (some ("s.wav".data)) none true
    (by rw [pyStrip_replicate_a]; simp)
    (fun _ => rfl)
    (by rw [normalize_replicate_a, List.length_replicate]
        norm_num [defaultConfig])
    (fun p _ => by cases p <;> rfl)
  exact h.1

/-! ## C4: which successes are written to the cache -/

/-- Claim C4, counterexample: a cache-miss request (caching enabled) that
succeeds through the buffered path via the robotic gTTS provider returns
its audio without any cache write — the gTTS success path of
generate_speech has no cache-store step. -/
theorem C4_no_cache_write_counterexample :
    (generate_speech
      { xtts := false, edge_tts_available := false,
        offline_available := false, config := defaultConfig }
      { cache := fun _ => none, speaker_wav_exists := false,
        xttsResult := none, edgeResult := none, gttsResult := some [3],
        offlineResult := none, pydub_available := true, now := 0 }
      (List.replicate 2 'a') ("en".data) ("1.0".data) none none none
      true).1 = .bytes [3] "audio/mpeg" ∧
    (generate_speech
      { xtts := false, edge_tts_available := false,
        offline_available := false, config := defaultConfig }
      { cache := fun _ => none, speaker_wav_exists := false,
        xttsResult := none, edgeResult := none, gttsResult := some [3],
        offlineResult := none, pydub_available := true, now := 0 }
      (List.replicate 2 'a') ("en".data) ("1.0".data) none none none
      true).2.all (fun ev => !isCacheWrite ev) = true := by
  obtain ⟨h1, h2⟩ := generate_speech_miss
    { xtts := false, edge_tts_available := false,
      offline_available := false, config := defaultConfig }
    { cache := fun _ => none, speaker_wav_exists := false,
      xttsResult := none, edgeResult := none, gttsResult := some [3],
      offlineResult := none, pydub_available := true, now := 0 }
    (List.replicate 2 'a') ("en".data) ("1.0".data) none none none true
    (by rw [pyStrip_replicate_a]; simp) (fun _ => rfl)
  have hac := afterCache_ok
    { xtts := false, edge_tts_available := false,
      offline_available := false, config := defaultConfig }
    { cache := fun _ => none, speaker_wav_exists := false,
      xttsResult := none, edgeResult := none, gttsResult := some [3],
      offlineResult := none, pydub_available := true, now := 0 }
    (normalize_text (List.replicate 2 'a') ("en".data)) ("en".data)
    ("1.0".data) none none none true
    (by rw [normalize_replicate_a, List.length_replicate]
        norm_num [defaultConfig])
  rw [hac] at h1 h2
  obtain ⟨hr, ha⟩ := chain_gtts_success
    { xtts := false, edge_tts_available := false,
      offline_available := false, config := defaultConfig }
    { cache := fun _ => none, speaker_wav_exists := false,
      xttsResult := none, edgeResult := none, gttsResult := some [3],
      offlineResult := none, pydub_available := true, now := 0 }
    (normalize_text (List.replicate 2 'a') ("en".data)) ("en".data)
    ("1.0".data) none none
    (if (none : Option Str) = none && !true then
      some (genOutputPath
        { xtts := false, edge_tts_available := false,
          offline_available := false, config := defaultConfig }
        { cache := fun _ => none, speaker_wav_exists := false,
          xttsResult := none, edgeResult := none, gttsResult := some [3],
          offlineResult := none, pydub_available := true, now := 0 }
        ("en".data) none) else none)
    (Or.inl rfl) (Or.inl rfl) [3] rfl
  constructor
  · rw [h1]; exact hr
  · have hcache :
        ({ xtts := false, edge_tts_available := false,
           offline_available := false,
           config := defaultConfig } : Engine).config.ENABLE_CACHE = true :=
      rfl
    rw [h2, if_pos hcache, List.all_append, ha]
    rfl

/-- Claim C4 as amended: on a cache-miss request served in bytes mode with
caching enabled, a success of the voice-cloning or neural-cloud provider
is written to the Cache Store before the return; but a success of the
robotic-cloud or offline provider is returned without any cache write —
the write-back exists only on the two high-priority provider paths. -/
theorem C4_cache_write_only_cloning_and_neural (e : Engine) (w : World)
    (text0 language speedRepr : Str) (voice_id speaker_wav : Option Str)
    (op0 : Option Str)
    (hne : (text0 = [] || pyStrip text0 = []) = false)
    (hmiss : e.config.ENABLE_CACHE = true →
      w.cache (_get_cache_path (normalize_text text0 language) language
        voice_id speedRepr) = none)
    (hlen : ¬ e.config.MAX_TEXT_LENGTH <
      (normalize_text text0 language).length)
    (hc : e.config.ENABLE_CACHE = true) :
    ((e.xtts && optTruthy speaker_wav && w.speaker_wav_exists) = true →
      ∀ b, w.xttsResult = some b →
      (generate_speech e w text0 language speedRepr voice_id speaker_wav op0
        true).1 = .bytes b "audio/wav" ∧
      Ev.cacheWrite (_get_cache_path (normalize_text text0 language)
        language voice_id speedRepr) b ∈
        (generate_speech e w text0 language speedRepr voice_id speaker_wav
          op0 true).2) ∧
    (((e.xtts && optTruthy speaker_wav && w.speaker_wav_exists) = false ∨
        w.xttsResult = none) →
      (optTruthy voice_id && e.edge_tts_available) = true →
      ∀ b, b ≠ [] → w.edgeResult = some b →
      (generate_speech e w text0 language speedRepr voice_id speaker_wav op0
        true).1 = .bytes b "audio/mpeg" ∧
      Ev.cacheWrite (_get_cache_path (normalize_text text0 language)
        language voice_id speedRepr) b ∈
        (generate_speech e w text0 language speedRepr voice_id speaker_wav
          op0 true).2) ∧
    (((e.xtts && optTruthy speaker_wav && w.speaker_wav_exists) = false ∨
        w.xttsResult = none) →
      ((optTruthy voice_id && e.edge_tts_available) = false ∨
        w.edgeResult = none ∨ w.edgeResult = some []) →
      ∀ b, w.gttsResult = some b →
      (generate_speech e w text0 language speedRepr voice_id speaker_wav op0
        true).1 = .bytes b "audio/mpeg" ∧
      (generate_speech e w text0 language speedRepr voice_id speaker_wav op0
        true).2.all (fun ev => !isCacheWrite ev) = true) ∧
    (((e.xtts && optTruthy speaker_wav && w.speaker_wav_exists) = false ∨
        w.xttsResult = none) →
      ((optTruthy voice_id && e.edge_tts_available) = false ∨
        w.edgeResult = none ∨ w.edgeResult = some []) →
      w.gttsResult = none → e.offline_available = true →
      ∀ b, w.offlineResult = some b →
      (generate_speech e w text0 language speedRepr voice_id speaker_wav op0
        true).1 = .bytes b "audio/wav" ∧
      (generate_speech e w text0 language speedRepr voice_id speaker_wav op0
        true).2.all (fun ev => !isCacheWrite ev) = true) := by
  obtain ⟨h1, h2⟩ := generate_speech_miss e w text0 language speedRepr
    voice_id speaker_wav op0 true hne hmiss
  rw [afterCache_ok e w (normalize_text text0 language) language speedRepr
    voice_id speaker_wav op0 true hlen] at h1 h2
  refine ⟨?_, ?_, ?_, ?_⟩
  · intro ha b hx
    have hch := chain_xtts_success e w (normalize_text text0 language)
      language speedRepr voice_id speaker_wav
      (if op0 = none && !true then
        some (genOutputPath e w language speaker_wav) else op0) ha b hx
    constructor
    · rw [h1, hch]
    · rw [h2, hch, hc]
      simp [hc]
  · intro hxa hea b hb he
    have hch := chain_edge_success e w (normalize_text text0 language)
      language speedRepr voice_id speaker_wav
      (if op0 = none && !true then
        some (genOutputPath e w language speaker_wav) else op0)
      hxa hea b hb he
    constructor
    · rw [h1]; exact hch.1
    · rw [h2]
      exact List.mem_append_right _ (hch.2 hc)
  · intro hxa hea b hg
    have hch := chain_gtts_success e w (normalize_text text0 language)
      language speedRepr voice_id speaker_wav
      (if op0 = none && !true then
        some (genOutputPath e w language speaker_wav) else op0)
      hxa hea b hg
    constructor
    · rw [h1]; exact hch.1
    · rw [h2, if_pos hc, List.all_append, hch.2]
      rfl
  · intro hxa hea hg hoa b ho
    have hch := chain_offline_success e w (normalize_text text0 language)
      language speedRepr voice_id speaker_wav
      (if op0 = none && !true then
        some (genOutputPath e w language speaker_wav) else op0)
      hxa hea hg hoa b ho
    constructor
    · rw [h1]; exact hch.1
    · rw [h2, if_pos hc, List.all_append, hch.2]
      rfl

/-- Witness for the amended C4 at a concrete request: an Edge TTS success
is written back, seen in the trace. -/
theorem C4_cache_write_witness :
    (generate_speech
      { xtts := false, edge_tts_available := true,
        offline_available := false, config := defaultConfig }
      { cache := fun _ => none, speaker_wav_exists := false,
        xttsResult := none, edgeResult := some [2], gttsResult := none,
        offlineResult := none, pydub_available := true, now := 0 }
      (List.replicate 2 'a') ("en".data) ("1.0".data) (some ("v".data))
      none none true).1 = .bytes [2] "audio/mpeg" ∧
    Ev.cacheWrite (_get_cache_path (normalize_text (List.replicate 2 'a')
        ("en".data)) ("en".data) (some ("v".data)) ("1.0".data)) [2] ∈
      (generate_speech
        { xtts := false, edge_tts_available := true,
          offline_available := false, config := defaultConfig }
        { cache := fun _ => none, speaker_wav_exists := false,
          xttsResult := none, edgeResult := some [2], gttsResult := none,
          offlineResult := none, pydub_available := true, now := 0 }
        (List.replicate 2 'a') ("en".data) ("1.0".data) (some ("v".data))
        none none true).2 :=
  (C4_cache_write_only_cloning_and_neural
    { xtts := false, edge_tts_available := true,
      offline_available := false, config := defaultConfig }
    { cache := fun _ => none, speaker_wav_exists := false,
      xttsResult := none, edgeResult := some [2], gttsResult := none,
      offlineResult := none, pydub_available := true, now := 0 }
    (List.replicate 2 'a') ("en".data) ("1.0".data) (some ("v".data))
    none none
    (by rw [pyStrip_replicate_a]; simp)
    (fun _ => rfl)
    (by rw [normalize_replicate_a, List.length_replicate]
        norm_num [defaultConfig])
    rfl).2.1 (Or.inl rfl) rfl [2] (by simp) rfl

/-! ## C10: cache hits are always tagged audio/mpeg -/

/-- Claim C10: a voice-cloning (XTTS) success in bytes mode is returned
tagged audio/wav and its bytes are stored under a fingerprint path ending
in .mp3; any later request with the same fingerprint is served from the
cache tagged audio/mpeg — the same audio changes its advertised format,
because the cache stores no format tag. -/
theorem C10_cache_hit_mime_mismatch (e : Engine) (w : World)
    (text0 language speedRepr : Str) (voice_id speaker_wav : Option Str)
    (op0 : Option Str) (b : Bytes)
    (hne : (text0 = [] || pyStrip text0 = []) = false)
    (hc : e.config.ENABLE_CACHE = true)
    (hmiss : w.cache (_get_cache_path (normalize_text text0 language)
      language voice_id speedRepr) = none)
    (hlen : ¬ e.config.MAX_TEXT_LENGTH <
      (normalize_text text0 language).length)
    (ha : (e.xtts && optTruthy speaker_wav && w.speaker_wav_exists) = true)
    (hx : w.xttsResult = some b) :
    (generate_speech e w text0 language speedRepr voice_id speaker_wav op0
      true).1 = .bytes b "audio/wav" ∧
    (generate_speech e w text0 language speedRepr voice_id speaker_wav op0
      true).2 =
      [.cacheLookup (_get_cache_path (normalize_text text0 language)
        language voice_id speedRepr),
       .invoke .xtts language,
       .cacheWrite (_get_cache_path (normalize_text text0 language) language
         voice_id speedRepr) b] ∧
    endsWithStr (".mp3".data) (_get_cache_path (normalize_text text0
      language) language voice_id speedRepr) = true ∧
    (∀ w2 : World,
      w2.cache (_get_cache_path (normalize_text text0 language) language
        voice_id speedRepr) = some b →
      (generate_speech e w2 text0 language speedRepr voice_id speaker_wav
        op0 true).1 = .bytes b "audio/mpeg") := by
  obtain ⟨h1, h2⟩ := generate_speech_miss e w text0 language speedRepr
    voice_id speaker_wav op0 true hne (fun _ => hmiss)
  rw [afterCache_ok e w (normalize_text text0 language) language speedRepr
    voice_id speaker_wav op0 true hlen] at h1 h2
  have hch := chain_xtts_success e w (normalize_text text0 language)
    language speedRepr voice_id speaker_wav
    (if op0 = none && !true then
      some (genOutputPath e w language speaker_wav) else op0) ha b hx
  refine ⟨?_, ?_, ?_, ?_⟩
  · rw [h1, hch]
  · rw [h2, hch, hc]
    simp [hc]
  · simp only [endsWithStr, _get_cache_path, List.isSuffixOf_iff_suffix,
      decide_eq_true_eq]
    exact List.suffix_append _ _
  · intro w2 hhit
    exact generate_speech_hit_bytes e w2 text0 language speedRepr voice_id
      speaker_wav op0 b hne hc hhit

/-- Witness for C10: a concrete first synthesis tagged audio/wav whose
repeat request is served from the cache tagged audio/mpeg. -/
theorem C10_cache_hit_mime_witness :
    (generate_speech
      { xtts := true, edge_tts_available := false,
        offline_available := false, config := defaultConfig }
      { cache := fun _ => none, speaker_wav_exists := true,
        xttsResult := some [5], edgeResult := none, gttsResult := none,
        offlineResult := none, pydub_available := true, now := 0 }
      (List.replicate 2 'a') ("en".data) ("1.0".data) none
      (some ("s.wav".data)) none true).1 = .bytes [5] "audio/wav" ∧
    (generate_speech
      { xtts := true, edge_tts_available := false,
        offline_available := false, config := defaultConfig }
      { cache := fun _ => some [5], speaker_wav_exists := true,
        xttsResult := some [5], edgeResult := none, gttsResult := none,
        offlineResult := none, pydub_available := true, now := 0 }
      (List.replicate 2 'a') ("en".data) ("1.0".data) none
      (some ("s.wav".data)) none true).1 = .bytes [5] "audio/mpeg" := by
  have h := C10_cache_hit_mime_mismatch
    { xtts := true, edge_tts_available := false,
      offline_available := false, config := defaultConfig }
    { cache := fun _ => none, speaker_wav_exists := true,
      xttsResult := some [5], edgeResult := none, gttsResult := none,
      offlineResult := none, pydub_available := true, now := 0 }
    (List.replicate 2 'a') ("en".data) ("1.0".data) none
    (some ("s.wav".data)) none [5]
    (by rw [pyStrip_replicate_a]; simp)
    rfl rfl
    (by rw [normalize_replicate_a, List.length_replicate]
        norm_num [defaultConfig])
    rfl rfl
  exact ⟨h.1, h.2.2.2
    { cache := fun _ => some [5], speaker_wav_exists := true,
      xttsResult := some [5], edgeResult := none, gttsResult := none,
      offlineResult := none, pydub_available := true, now := 0 } rfl⟩

/-! ## C8: streaming failure falls back to the buffered path -/

lemma process_result_bytes (e : Engine) (w : World) (text lang_code : Str)
    (speedRepr gender : Str) (st : Bool) (h0 : ¬ text = [])
    (h1 : ¬ e.config.MAX_TEXT_LENGTH < text.length) (b : Bytes) (m : String)
    (hres : (generate_speech e w text lang_code speedRepr
      (get_voice_id lang_code gender) none none true).1 = .bytes b m) :
    (process_generate_request e w text lang_code speedRepr gender st).1 =
      .audio b m := by
  unfold process_generate_request
  rw [if_neg h0, if_neg h1]
  dsimp only
  rw [hres]

/-- Claim C8: the streaming path of process_generate_request always fails
before the first chunk (TTSEngine has no generate_speech_stream, so the
attempt raises inside the try), and the handler falls back to the
buffered provider-chain path: with streaming requested, the response is
identical to the buffered response, and when the chain produces audio the
caller still receives the complete buffer. -/
theorem C8_stream_fallback_buffered (e : Engine) (w : World)
    (text lang_code speedRepr gender : Str) (b : Bytes) (m : String)
    (h0 : ¬ text = [])
    (h1 : ¬ e.config.MAX_TEXT_LENGTH < text.length)
    (hne : (text = [] || pyStrip text = []) = false)
    (hmiss : e.config.ENABLE_CACHE = true →
      w.cache (_get_cache_path (normalize_text text lang_code) lang_code
        (get_voice_id lang_code gender) speedRepr) = none)
    (hlen : ¬ e.config.MAX_TEXT_LENGTH <
      (normalize_text text lang_code).length)
    (hsucc : specChainOutcome w
      (specApplicable e w (get_voice_id lang_code gender) none) =
      some (b, m)) :
    (process_generate_request e w text lang_code speedRepr gender true).1 =
      .audio b m ∧
    process_generate_request e w text lang_code speedRepr gender true =
      process_generate_request e w text lang_code speedRepr gender false := by
  obtain ⟨h2, h3⟩ := generate_speech_miss e w text lang_code speedRepr
    (get_voice_id lang_code gender) none none true hne hmiss
  rw [afterCache_ok e w (normalize_text text lang_code) lang_code speedRepr
    (get_voice_id lang_code gender) none none true hlen] at h2
  obtain ⟨_, hx2⟩ := tryXtts_char e w (normalize_text text lang_code)
    lang_code speedRepr (get_voice_id lang_code gender) none
    (if (none : Option Str) = none && !true then
      some (genOutputPath e w lang_code none) else none) true
  have hmo := hx2 rfl
  rw [hsucc] at hmo
  have hres : (generate_speech e w text lang_code speedRepr
      (get_voice_id lang_code gender) none none true).1 = .bytes b m := by
    rw [h2]; exact hmo
  exact ⟨process_result_bytes e w text lang_code speedRepr gender true h0 h1
    b m hres, rfl⟩

/-- Witness for C8 at a concrete streaming request served by the robotic
provider. -/
theorem C8_stream_fallback_witness :
    (process_generate_request
      { xtts := false, edge_tts_available := false,
        offline_available := false, config := defaultConfig }
      { cache := fun _ => none, speaker_wav_exists := false,
        xttsResult := none, edgeResult := none, gttsResult := some [3],
        offlineResult := none, pydub_available := true, now := 0 }
      (List.replicate 2 'a') ("en".data) ("1.0".data) ("female".data)
      true).1 = .audio [3] "audio/mpeg" :=
  (C8_stream_fallback_buffered
    { xtts := false, edge_tts_available := false,
      offline_available := false, config := defaultConfig }
    { cache := fun _ => none, speaker_wav_exists := false,
      xttsResult := none, edgeResult := none, gttsResult := some [3],
      offlineResult := none, pydub_available := true, now := 0 }
    (List.replicate 2 'a') ("en".data) ("1.0".data) ("female".data)
    [3] "audio/mpeg"
    (by simp)
    (by rw [List.length_replicate]; norm_num [defaultConfig])
    (by rw [pyStrip_replicate_a]; simp)
    (fun _ => rfl)
    (by rw [normalize_replicate_a, List.length_replicate]
        norm_num [defaultConfig])
    rfl).1

/-! ## C6: idempotence of normalization.
The development below establishes normalize(normalize(t)) = normalize(t)
for every text.  It proceeds in three parts: (1) a theory of the
case-insensitive replacement replaceCI showing that the normalized text
contains no occurrence of either pronunciation key; (2) transfer lemmas
showing that acronym expansion, whitespace collapsing and stripping cannot
create new occurrences; (3) commutation and idempotence lemmas showing
that the last three stages are the identity on already-normalized text. -/

/-! ### Character class facts -/

lemma char_eq_iff_toNat {a b : Char} : a = b ↔ a.toNat = b.toNat := by
  constructor
  · intro h; rw [h]
  · intro h
    apply Char.ext
    exact UInt32.toNat.inj h

lemma ciEq_cases {a b : Char} (h : ciEq a b = true) :
    a = b ∨ (isUpperAZ a = true ∧ b.toNat = a.toNat + 32) ∨
    (isUpperAZ b = true ∧ a.toNat = b.toNat + 32) := by
  simp only [ciEq, Bool.or_eq_true, Bool.and_eq_true, decide_eq_true_eq]
    at h
  tauto

lemma ciEq_refl (a : Char) : ciEq a a = true := by
  simp [ciEq]

lemma isWordChar_iff {c : Char} : isWordChar c = true ↔
    (65 ≤ c.toNat ∧ c.toNat ≤ 90) ∨ (97 ≤ c.toNat ∧ c.toNat ≤ 122) ∨
    (48 ≤ c.toNat ∧ c.toNat ≤ 57) ∨ c.toNat = 95 := by
  simp only [isWordChar, Bool.or_eq_true, Bool.and_eq_true,
    decide_eq_true_eq]
  tauto

lemma isWS_iff {c : Char} : isWS c = true ↔
    c.toNat = 32 ∨ c.toNat = 9 ∨ c.toNat = 10 ∨ c.toNat = 13 ∨
    c.toNat = 11 ∨ c.toNat = 12 := by
  simp only [isWS, Bool.or_eq_true, decide_eq_true_eq]
  tauto

lemma isUpperAZ_iff {c : Char} : isUpperAZ c = true ↔
    65 ≤ c.toNat ∧ c.toNat ≤ 90 := by
  simp [isUpperAZ, Bool.and_eq_true, decide_eq_true_eq]

lemma ciEq_isWordChar {a b : Char} (h : ciEq a b = true) :
    isWordChar a = isWordChar b := by
  rcases ciEq_cases h with h | ⟨hu, he⟩ | ⟨hu, he⟩
  · rw [h]
  · rw [isUpperAZ_iff] at hu
    have ha : isWordChar a = true := isWordChar_iff.mpr (Or.inl hu)
    have hb : isWordChar b = true := isWordChar_iff.mpr
      (Or.inr (Or.inl (by omega)))
    rw [ha, hb]
  · rw [isUpperAZ_iff] at hu
    have hb : isWordChar b = true := isWordChar_iff.mpr (Or.inl hu)
    have ha : isWordChar a = true := isWordChar_iff.mpr
      (Or.inr (Or.inl (by omega)))
    rw [ha, hb]

lemma ciEq_isWS {a b : Char} (h : ciEq a b = true) : isWS a = isWS b := by
  rcases ciEq_cases h with h | ⟨hu, he⟩ | ⟨hu, he⟩
  · rw [h]
  · rw [isUpperAZ_iff] at hu
    have ha : isWS a = false := by
      rcases hws : isWS a with _ | _
      · rfl
      · rw [isWS_iff] at hws; omega
    have hb : isWS b = false := by
      rcases hws : isWS b with _ | _
      · rfl
      · rw [isWS_iff] at hws; omega
    rw [ha, hb]
  · rw [isUpperAZ_iff] at hu
    have ha : isWS a = false := by
      rcases hws : isWS a with _ | _
      · rfl
      · rw [isWS_iff] at hws; omega
    have hb : isWS b = false := by
      rcases hws : isWS b with _ | _
      · rfl
      · rw [isWS_iff] at hws; omega
    rw [ha, hb]

lemma isWordChar_not_isWS {c : Char} (h : isWordChar c = true) :
    isWS c = false := by
  rw [isWordChar_iff] at h
  rcases hws : isWS c with _ | _
  · rfl
  · rw [isWS_iff] at hws; omega

lemma isWS_not_isWordChar {c : Char} (h : isWS c = true) :
    isWordChar c = false := by
  rcases hw : isWordChar c with _ | _
  · rfl
  · rw [isWordChar_not_isWS hw] at h
    exact absurd h (by simp)

lemma isUpperAZ_isWordChar {c : Char} (h : isUpperAZ c = true) :
    isWordChar c = true :=
  isWordChar_iff.mpr (Or.inl (isUpperAZ_iff.mp h))

/-! ### startsWithCI and containsCI toolbox -/

lemma startsWithCI_nil_left (t : Str) : startsWithCI [] t = true := by
  cases t <;> rfl

lemma startsWithCI_nil_right {k : Str} (h : startsWithCI k [] = true) :
    k = [] := by
  cases k with
  | nil => rfl
  | cons a as => simp [startsWithCI] at h

lemma startsWithCI_cons {a : Char} {as : Str} {t : Str} :
    startsWithCI (a :: as) t = true ↔
    ∃ c cs, t = c :: cs ∧ ciEq a c = true ∧ startsWithCI as cs = true := by
  cases t with
  | nil => simp [startsWithCI]
  | cons c cs =>
    simp only [startsWithCI, Bool.and_eq_true]
    constructor
    · intro h; exact ⟨c, cs, rfl, h.1, h.2⟩
    · rintro ⟨d, ds, hds, h1, h2⟩
      obtain ⟨rfl, rfl⟩ : d = c ∧ ds = cs := by
        constructor <;> [exact (List.cons.injEq .. ▸ hds).1.symm;
          exact (List.cons.injEq .. ▸ hds).2.symm]
      exact ⟨h1, h2⟩

lemma startsWithCI_append_right {k t : Str} (v : Str)
    (h : startsWithCI k t = true) : startsWithCI k (t ++ v) = true := by
  induction k generalizing t with
  | nil => exact startsWithCI_nil_left _
  | cons a as ih =>
    rcases startsWithCI_cons.mp h with ⟨c, cs, rfl, h1, h2⟩
    exact startsWithCI_cons.mpr ⟨c, cs ++ v, rfl, h1, ih h2⟩

lemma agreeCI_of_startsWithCI_append {k u v : Str}
    (h : startsWithCI k (u ++ v) = true) : agreeCI k u = true := by
  induction k generalizing u with
  | nil => cases u <;> rfl
  | cons a as ih =>
    cases u with
    | nil => rfl
    | cons c cs =>
      rcases startsWithCI_cons.mp h with ⟨d, ds, hds, h1, h2⟩
      obtain ⟨rfl, rfl⟩ : d = c ∧ ds = cs ++ v := by
        constructor <;> [exact (List.cons.injEq .. ▸ hds).1.symm;
          exact (List.cons.injEq .. ▸ hds).2.symm]
      simp only [agreeCI, Bool.and_eq_true]
      exact ⟨h1, ih h2⟩

lemma containsCI_eq_true_iff {k x : Str} : containsCI k x = true ↔
    ∃ i, startsWithCI k (x.drop i) = true := by
  induction x with
  | nil =>
    simp only [containsCI]
    constructor
    · intro h; exact ⟨0, h⟩
    · rintro ⟨i, hi⟩; simpa using hi
  | cons c cs ih =>
    simp only [containsCI, Bool.or_eq_true]
    constructor
    · rintro (h | h)
      · exact ⟨0, h⟩
      · obtain ⟨i, hi⟩ := ih.mp h
        exact ⟨i + 1, hi⟩
    · rintro ⟨i, hi⟩
      cases i with
      | zero => exact Or.inl hi
      | succ j => exact Or.inr (ih.mpr ⟨j, hi⟩)

lemma containsCI_cons_tail {k : Str} {c : Char} {cs : Str}
    (h : containsCI k cs = true) : containsCI k (c :: cs) = true := by
  simp [containsCI, h]

lemma containsCI_append_left {k b : Str} (a : Str)
    (h : containsCI k b = true) : containsCI k (a ++ b) = true := by
  induction a with
  | nil => exact h
  | cons x xs ih => exact containsCI_cons_tail ih

lemma containsCI_append_right {k a : Str} (b : Str)
    (h : containsCI k a = true) : containsCI k (a ++ b) = true := by
  obtain ⟨i, hi⟩ := containsCI_eq_true_iff.mp h
  apply containsCI_eq_true_iff.mpr
  refine ⟨i, ?_⟩
  by_cases hlen : i ≤ a.length
  · rw [List.drop_append_of_le_length hlen]
    exact startsWithCI_append_right _ hi
  · rw [List.drop_eq_nil_of_le (by omega)] at hi
    rw [startsWithCI_nil_right hi]
    exact startsWithCI_nil_left _

lemma containsCI_of_within {k y x : Str} (h : containsCI k y = true)
    (hinf : y <:+: x) : containsCI k x = true := by
  obtain ⟨u, v, rfl⟩ := hinf
  rw [List.append_assoc]
  exact containsCI_append_left u (containsCI_append_right v h)

lemma containsCI_drop_false {k x : Str} (n : Nat)
    (h : containsCI k x = false) : containsCI k (x.drop n) = false := by
  rcases hc : containsCI k (x.drop n) with _ | _
  · rfl
  · rw [containsCI_of_within hc (List.drop_suffix n x).isInfix] at h
    exact absurd h (by simp)

lemma containsCI_tail_false {k : Str} {c : Char} {cs : Str}
    (h : containsCI k (c :: cs) = false) : containsCI k cs = false := by
  simp only [containsCI, Bool.or_eq_false_iff] at h
  exact h.2

/-! ### replaceCI leaves no occurrence of the key.
Hst1 says the key cannot match starting inside the replacement; Hst2 says
no proper tail of the key matches at the start of the replacement.  Both
are decidable side conditions checked for the concrete pronunciation
entries below. -/

lemma replaceCI_chase (k kp r : Str)
    (hst2 : ∀ i, 0 < i → i < k.length → agreeCI (k.drop i) r = false) :
    ∀ t i, 0 < i → i ≤ k.length →
      startsWithCI (k.drop i) (replaceCI kp r t) = true →
      startsWithCI (k.drop i) t = true := by
  intro t
  induction t using replaceCI.induct kp r with
  | case1 =>
    intro i hi hik h
    rw [replaceCI] at h
    rw [startsWithCI_nil_right h]
    exact startsWithCI_nil_left _
  | case2 c cs hm ih =>
    intro i hi hik h
    rw [replaceCI, if_pos hm] at h
    rcases hdrop : k.drop i with _ | ⟨d, ds⟩
    · exact startsWithCI_nil_left _
    · have hik2 : i < k.length := by
        by_contra hc
        rw [List.drop_eq_nil_of_le (by omega)] at hdrop
        exact absurd hdrop (by simp)
      rw [hdrop] at h
      have := agreeCI_of_startsWithCI_append h
      rw [← hdrop] at this
      rw [hst2 i hi hik2] at this
      exact absurd this (by simp)
  | case3 c cs hm ih =>
    intro i hi hik h
    rw [replaceCI, if_neg (by simp [hm])] at h
    rcases hdrop : k.drop i with _ | ⟨d, ds⟩
    · exact startsWithCI_nil_left _
    · have hik2 : i < k.length := by
        by_contra hc
        rw [List.drop_eq_nil_of_le (by omega)] at hdrop
        exact absurd hdrop (by simp)
      rw [hdrop] at h
      rcases startsWithCI_cons.mp h with ⟨x, xs, hxs, h1, h2⟩
      cases hxs
      have hds : k.drop (i + 1) = ds := by
        have := List.tail_drop k i
        rw [hdrop] at this
        simpa using this.symm
      have h3 := ih (i + 1) (by omega) (by omega) (by rw [hds]; exact h2)
      exact startsWithCI_cons.mpr ⟨c, cs, rfl, h1, by rw [← hds]; exact h3⟩

lemma containsCI_append_no_start {k v R : Str}
    (hv : ∀ j, j < v.length → agreeCI k (v.drop j) = false)
    (hR : containsCI k R = false) : containsCI k (v ++ R) = false := by
  induction v with
  | nil => exact hR
  | cons a as ih =>
    rw [List.cons_append]
    simp only [containsCI, Bool.or_eq_false_iff]
    constructor
    · rcases hs : startsWithCI k (a :: (as ++ R)) with _ | _
      · rfl
      · exfalso
        have hag : agreeCI k (a :: as) = true := by
          refine agreeCI_of_startsWithCI_append (u := a :: as) (v := R) ?_
          rw [List.cons_append]
          exact hs
        have h0 := hv 0 (by simp)
        rw [List.drop_zero] at h0
        rw [h0] at hag
        exact absurd hag (by simp)
    · refine ih (fun j hj => ?_)
      exact hv (j + 1) (by simp only [List.length_cons]; omega)

lemma replaceCI_no_self_occurrence (k r : Str) (hk : k ≠ [])
    (hst1 : ∀ j, j < r.length → agreeCI k (r.drop j) = false)
    (hst2 : ∀ i, 0 < i → i < k.length → agreeCI (k.drop i) r = false) :
    ∀ t, containsCI k (replaceCI k r t) = false := by
  obtain ⟨k0, k1, rfl⟩ : ∃ a as, k = a :: as := by
    cases k with
    | nil => exact absurd rfl hk
    | cons a as => exact ⟨a, as, rfl⟩
  intro t
  induction t using replaceCI.induct (k0 :: k1) r with
  | case1 => rw [replaceCI]; rfl
  | case2 c cs hm ih =>
    rw [replaceCI, if_pos hm]
    exact containsCI_append_no_start hst1 ih
  | case3 c cs hm ih =>
    rw [replaceCI, if_neg (by simp [hm])]
    simp only [containsCI, Bool.or_eq_false_iff]
    refine ⟨?_, ih⟩
    rcases hs : startsWithCI (k0 :: k1) (c :: replaceCI (k0 :: k1) r cs)
      with _ | _
    · rfl
    · exfalso
      rcases startsWithCI_cons.mp hs with ⟨x, xs, hxs, h1, h2⟩
      cases hxs
      have h3 := replaceCI_chase (k0 :: k1) (k0 :: k1) r hst2 cs 1
        (by omega) (by simp) h2
      have hocc : startsWithCI (k0 :: k1) (c :: cs) = true :=
        startsWithCI_cons.mpr ⟨c, cs, rfl, h1, h3⟩
      rw [hocc] at hm
      exact hm (by rfl)

lemma replaceCI_no_cross_occurrence (k kp rp : Str) (hk : k ≠ [])
    (hst1 : ∀ j, j < rp.length → agreeCI k (rp.drop j) = false)
    (hst2 : ∀ i, 0 < i → i < k.length → agreeCI (k.drop i) rp = false) :
    ∀ t, containsCI k t = false →
      containsCI k (replaceCI kp rp t) = false := by
  obtain ⟨k0, k1, rfl⟩ : ∃ a as, k = a :: as := by
    cases k with
    | nil => exact absurd rfl hk
    | cons a as => exact ⟨a, as, rfl⟩
  intro t
  induction t using replaceCI.induct kp rp with
  | case1 =>
    intro h
    rw [replaceCI]
    rfl
  | case2 c cs hm ih =>
    intro h
    rw [replaceCI, if_pos hm]
    exact containsCI_append_no_start hst1
      (ih (containsCI_drop_false _ (containsCI_tail_false h)))
  | case3 c cs hm ih =>
    intro h
    rw [replaceCI, if_neg (by simp [hm])]
    simp only [containsCI, Bool.or_eq_false_iff]
    refine ⟨?_, ih (containsCI_tail_false h)⟩
    rcases hs : startsWithCI (k0 :: k1) (c :: replaceCI kp rp cs) with _ | _
    · rfl
    · exfalso
      rcases startsWithCI_cons.mp hs with ⟨x, xs, hxs, h1, h2⟩
      cases hxs
      have h3 := replaceCI_chase (k0 :: k1) kp rp hst2 cs 1
        (by omega) (by simp) h2
      have hocc : containsCI (k0 :: k1) (c :: cs) = true := by
        simp only [containsCI, Bool.or_eq_true]
        exact Or.inl (startsWithCI_cons.mpr ⟨c, cs, rfl, h1, h3⟩)
      rw [hocc] at h
      exact absurd h (by simp)

/-! ### Transfer of (non-)occurrence through expansion, collapsing and
stripping: none of the later normalization stages can create an
occurrence of an all-word-character key. -/

lemma dropWhile_cons_head_false (p : Char → Bool) (l : Str) (d : Char)
    (ds : Str) (h : l.dropWhile p = d :: ds) : p d = false := by
  induction l with
  | nil => simp at h
  | cons c cs ih =>
    rw [List.dropWhile_cons] at h
    split at h
    · exact ih h
    · rename_i hc
      obtain ⟨rfl, _⟩ : c = d ∧ cs = ds := by
        constructor <;> [exact (List.cons.injEq .. ▸ h).1;
          exact (List.cons.injEq .. ▸ h).2]
      simpa using hc

lemma processWord_nonempty (c : Char) (w : Str) :
    processWord (c :: w) ≠ [] := by
  unfold processWord
  split_ifs
  · cases w <;> simp [List.intersperse]
  · simp

lemma expandAcronyms_eq_nil_iff (x : Str) :
    expandAcronyms x = [] ↔ x = [] := by
  cases x with
  | nil => simp [expandAcronyms_nil]
  | cons c cs =>
    rw [expandAcronyms]
    split_ifs
    · simp only [List.append_eq_nil]
      constructor
      · rintro ⟨h1, _⟩
        exact absurd h1 (processWord_nonempty c _)
      · intro h
        exact absurd h (by simp)
    · simp

lemma expandAcronyms_nonword_head (c : Char) (cs : Str)
    (h : isWordChar c = false) :
    expandAcronyms (c :: cs) = c :: expandAcronyms cs := by
  rw [expandAcronyms, if_neg (by simp [h])]

/-- A key made of word characters that matches across the end of a word
region must already match within it, because the next character is not a
word character. -/
lemma startsWithCI_word_boundary {k : Str} (hk : k.all isWordChar = true)
    {B : Str}
    (hB : B = [] ∨ ∃ d bs, B = d :: bs ∧ isWordChar d = false) :
    ∀ u, startsWithCI k (u ++ B) = true → startsWithCI k u = true := by
  induction k with
  | nil => intro u _; exact startsWithCI_nil_left _
  | cons a as ih =>
    intro u h
    have ha : isWordChar a = true := by
      simp only [List.all_cons, Bool.and_eq_true] at hk
      exact hk.1
    cases u with
    | nil =>
      exfalso
      rcases hB with rfl | ⟨d, bs, rfl, hd⟩
      · simp [startsWithCI] at h
      · rcases startsWithCI_cons.mp h with ⟨x, xs, hxs, h1, _⟩
        cases hxs
        rw [ciEq_isWordChar h1] at ha
        rw [ha] at hd
        exact absurd hd (by simp)
    | cons b bs =>
      rcases startsWithCI_cons.mp h with ⟨x, xs, hxs, h1, h2⟩
      cases hxs
      refine startsWithCI_cons.mpr ⟨b, bs, rfl, h1, ?_⟩
      have hktail : as.all isWordChar = true := by
        simp only [List.all_cons, Bool.and_eq_true] at hk
        exact hk.2
      exact ih hktail bs h2

/-- No all-word key of length at least two matches anywhere inside a
spaced-out acronym (ending at a non-word boundary). -/
lemma no_startsWithCI_intersperse {k : Str} (hk : k.all isWordChar = true)
    (hk2 : 2 ≤ k.length) :
    ∀ (W : Str) (B : Str), W.all isUpperAZ = true →
    (B = [] ∨ ∃ d bs, B = d :: bs ∧ isWordChar d = false) →
    ∀ i, startsWithCI k ((List.intersperse ' ' W).drop i ++ B) = false := by
  intro W
  induction W with
  | nil =>
    intro B hW hB i
    rcases hs : startsWithCI k (((List.intersperse ' ' []).drop i) ++ B)
      with _ | _
    · rfl
    · exfalso
      simp only [List.intersperse_nil, List.drop_nil, List.nil_append] at hs
      rcases k with _ | ⟨k0, k1⟩
      · simp at hk2
      · rcases hB with rfl | ⟨d, bs, rfl, hd⟩
        · simp [startsWithCI] at hs
        · rcases startsWithCI_cons.mp hs with ⟨x, xs, hxs, h1, _⟩
          cases hxs
          have h0 : isWordChar k0 = true := by
            simp only [List.all_cons, Bool.and_eq_true] at hk
            exact hk.1
          rw [ciEq_isWordChar h1] at h0
          rw [h0] at hd
          exact absurd hd (by simp)
  | cons a t ih =>
    intro B hW hB i
    cases t with
    | nil =>
      rcases hs : startsWithCI k ((List.intersperse ' ' [a]).drop i ++ B)
        with _ | _
      · rfl
      · exfalso
        rw [List.intersperse_singleton] at hs
        rcases k with _ | ⟨k0, k1⟩
        · simp at hk2
        · rcases hi : ([a] : Str).drop i with _ | ⟨y, ys⟩
          · rw [hi, List.nil_append] at hs
            rcases hB with rfl | ⟨d, bs, rfl, hd⟩
            · simp [startsWithCI] at hs
            · rcases startsWithCI_cons.mp hs with ⟨x, xs, hxs, h1, _⟩
              cases hxs
              have h0 : isWordChar k0 = true := by
                simp only [List.all_cons, Bool.and_eq_true] at hk
                exact hk.1
              rw [ciEq_isWordChar h1] at h0
              rw [h0] at hd
              exact absurd hd (by simp)
          · have hy : y = a ∧ ys = [] := by
              cases i with
              | zero => simpa using hi.symm
              | succ j =>
                rw [List.drop_succ_cons, List.drop_nil] at hi
                exact absurd hi (by simp)
            obtain ⟨rfl, rfl⟩ := hy
            rw [hi, List.cons_append, List.nil_append] at hs
            rcases startsWithCI_cons.mp hs with ⟨x, xs, hxs, h1, h2⟩
            cases hxs
            cases k1 with
            | nil => simp at hk2
            | cons k2 k3 =>
              rcases hB with rfl | ⟨d, bs, rfl, hd⟩
              · simp [startsWithCI] at h2
              · rcases startsWithCI_cons.mp h2 with ⟨z, zs, hzs, h3, _⟩
                cases hzs
                have h0 : isWordChar k2 = true := by
                  simp only [List.all_cons, Bool.and_eq_true] at hk
                  exact hk.2.1
                rw [ciEq_isWordChar h3] at h0
                rw [h0] at hd
                exact absurd hd (by simp)
    | cons b t2 =>
      rw [List.intersperse_cons_cons]
      rcases hs : startsWithCI k ((a :: ' ' ::
        List.intersperse ' ' (b :: t2)).drop i ++ B) with _ | _
      · rfl
      · exfalso
        have hWtail : (b :: t2).all isUpperAZ = true := by
          simp only [List.all_cons, Bool.and_eq_true] at hW ⊢
          exact hW.2
        cases i with
        | zero =>
          rw [List.drop_zero, List.cons_append, List.cons_append] at hs
          rcases k with _ | ⟨k0, k1⟩
          · simp at hk2
          · rcases startsWithCI_cons.mp hs with ⟨x, xs, hxs, h1, h2⟩
            cases hxs
            cases k1 with
            | nil => simp at hk2
            | cons k2 k3 =>
              rcases startsWithCI_cons.mp h2 with ⟨z, zs, hzs, h3, _⟩
              cases hzs
              have h0 : isWordChar k2 = true := by
                simp only [List.all_cons, Bool.and_eq_true] at hk
                exact hk.2.1
              rw [ciEq_isWordChar h3] at h0
              rw [isWS_not_isWordChar (by decide)] at h0
              exact absurd h0 (by simp)
        | succ j =>
          cases j with
          | zero =>
            rw [List.drop_succ_cons, List.drop_zero, List.cons_append] at hs
            rcases k with _ | ⟨k0, k1⟩
            · simp at hk2
            · rcases startsWithCI_cons.mp hs with ⟨x, xs, hxs, h1, _⟩
              cases hxs
              have h0 : isWordChar k0 = true := by
                simp only [List.all_cons, Bool.and_eq_true] at hk
                exact hk.1
              rw [ciEq_isWordChar h1] at h0
              rw [isWS_not_isWordChar (by decide)] at h0
              exact absurd h0 (by simp)
          | succ m =>
            rw [List.drop_succ_cons, List.drop_succ_cons] at hs
            have := ih B hWtail hB m
            rw [hs] at this
            exact absurd this (by simp)

/-- Occurrences of an all-word key of length at least 2 in the expanded
text already occur in the original text. -/
lemma containsCI_expandAcronyms {k : Str} (hk : k.all isWordChar = true)
    (hk2 : 2 ≤ k.length) :
    ∀ x, containsCI k (expandAcronyms x) = true → containsCI k x = true := by
  intro x
  induction x using expandAcronyms.induct with
  | case1 =>
    intro h
    rw [expandAcronyms_nil] at h
    exact h
  | case2 c cs hcw ih =>
    intro h
    rw [expandAcronyms] at h
    rw [if_pos hcw] at h
    set W : Str := c :: cs.takeWhile isWordChar with hW
    set r : Str := cs.dropWhile isWordChar with hr
    have hx : c :: cs = W ++ r := by
      rw [hW, hr, List.cons_append, List.takeWhile_append_dropWhile]
    have hrB : expandAcronyms r = [] ∨
        ∃ d bs, expandAcronyms r = d :: bs ∧ isWordChar d = false := by
      rcases hrc : r with _ | ⟨d, ds⟩
      · left; rw [expandAcronyms_nil]
      · right
        have hd : isWordChar d = false :=
          dropWhile_cons_head_false _ cs d ds (hr ▸ hrc)
        exact ⟨d, expandAcronyms ds, by rw [expandAcronyms_nonword_head d ds hd],
          hd⟩
    obtain ⟨i, hi⟩ := containsCI_eq_true_iff.mp h
    by_cases hil : i ≤ (processWord W).length
    · rw [List.drop_append_of_le_length hil] at hi
      by_cases hq : (W.all isUpperAZ &&
          (decide (2 ≤ W.length) && decide (W.length ≤ 4))) = true
      · exfalso
        have hWU : W.all isUpperAZ = true := by
          simp only [Bool.and_eq_true] at hq
          exact hq.1
        have hpw : processWord W = List.intersperse ' ' W := by
          unfold processWord
          rw [if_pos hq]
        rw [hpw] at hi
        have hno := no_startsWithCI_intersperse hk hk2 W (expandAcronyms r)
          hWU hrB i
        rw [hi] at hno
        exact absurd hno (by simp)
      · have hpw : processWord W = W := by
          unfold processWord
          rw [if_neg hq]
        rw [hpw] at hi hil
        have hWstart := startsWithCI_word_boundary hk hrB (W.drop i) hi
        rw [hx]
        apply containsCI_eq_true_iff.mpr
        refine ⟨i, ?_⟩
        rw [List.drop_append_of_le_length hil]
        exact startsWithCI_append_right _ hWstart
    · push_neg at hil
      have hieq : i = (processWord W).length + (i - (processWord W).length) :=
        by omega
      rw [hieq, List.drop_append] at hi
      have hocc : containsCI k (expandAcronyms r) = true :=
        containsCI_eq_true_iff.mpr ⟨i - (processWord W).length, hi⟩
      have hr2 := ih hocc
      rw [hx]
      exact containsCI_append_left W hr2
  | case3 c cs hcw ih =>
    intro h
    rw [expandAcronyms_nonword_head c cs (by simpa using hcw)] at h
    simp only [containsCI, Bool.or_eq_true] at h ⊢
    rcases h with h | h
    · left
      rcases k with _ | ⟨k0, k1⟩
      · exact startsWithCI_nil_left _
      · exfalso
        rcases startsWithCI_cons.mp h with ⟨x, xs, hxs, h1, _⟩
        cases hxs
        have h0 : isWordChar k0 = true := by
          simp only [List.all_cons, Bool.and_eq_true] at hk
          exact hk.1
        rw [ciEq_isWordChar h1] at h0
        rw [h0] at hcw
        exact absurd hcw (by simp)
    · exact Or.inr (ih h)

lemma startsWithCI_collapseWS :
    ∀ cs (u : Str), u.all (fun c => !isWS c) = true →
      startsWithCI u (collapseWS cs) = true →
      startsWithCI u cs = true := by
  intro cs
  induction cs using collapseWS.induct with
  | case1 =>
    intro u hu h
    rw [collapseWS] at h
    rw [startsWithCI_nil_right h]
    exact startsWithCI_nil_left _
  | case2 c cs2 hws ih =>
    intro u hu h
    rw [collapseWS, if_pos hws] at h
    cases u with
    | nil => exact startsWithCI_nil_left _
    | cons u0 u1 =>
      exfalso
      rcases startsWithCI_cons.mp h with ⟨x, xs, hxs, h1, _⟩
      cases hxs
      have h0 : isWS u0 = false := by
        simp only [List.all_cons, Bool.and_eq_true, Bool.not_eq_true'] at hu
        exact hu.1
      rw [ciEq_isWS h1] at h0
      exact absurd h0 (by decide)
  | case3 c cs2 hws ih =>
    intro u hu h
    rw [collapseWS, if_neg (by simp [hws])] at h
    cases u with
    | nil => exact startsWithCI_nil_left _
    | cons u0 u1 =>
      rcases startsWithCI_cons.mp h with ⟨x, xs, hxs, h1, h2⟩
      cases hxs
      have hutail : u1.all (fun c => !isWS c) = true := by
        simp only [List.all_cons, Bool.and_eq_true] at hu
        exact hu.2
      exact startsWithCI_cons.mpr
        ⟨c, cs2, rfl, h1, ih u1 hutail h2⟩

lemma containsCI_collapseWS {k : Str}
    (hknw : k.all (fun c => !isWS c) = true) (hk : k ≠ []) :
    ∀ x, containsCI k (collapseWS x) = true → containsCI k x = true := by
  intro x
  induction x using collapseWS.induct with
  | case1 =>
    intro h
    rw [collapseWS] at h
    exact h
  | case2 c cs hws ih =>
    intro h
    rw [collapseWS, if_pos hws] at h
    simp only [containsCI, Bool.or_eq_true] at h
    rcases h with h | h
    · exfalso
      rcases k with _ | ⟨k0, k1⟩
      · exact hk rfl
      · rcases startsWithCI_cons.mp h with ⟨x, xs, hxs, h1, _⟩
        cases hxs
        have h0 : isWS k0 = false := by
          simp only [List.all_cons, Bool.and_eq_true,
            Bool.not_eq_true'] at hknw
          exact hknw.1
        rw [ciEq_isWS h1] at h0
        exact absurd h0 (by decide)
    · have := ih h
      exact containsCI_cons_tail
        (containsCI_of_within this (List.dropWhile_suffix _).isInfix)
  | case3 c cs hws ih =>
    intro h
    rw [collapseWS, if_neg (by simp [hws])] at h
    simp only [containsCI, Bool.or_eq_true] at h ⊢
    rcases h with h | h
    · left
      rcases k with _ | ⟨k0, k1⟩
      · exact startsWithCI_nil_left _
      · rcases startsWithCI_cons.mp h with ⟨x, xs, hxs, h1, h2⟩
        cases hxs
        have hutail : k1.all (fun c => !isWS c) = true := by
          simp only [List.all_cons, Bool.and_eq_true] at hknw
          exact hknw.2
        exact startsWithCI_cons.mpr
          ⟨c, cs, rfl, h1, startsWithCI_collapseWS cs k1 hutail h2⟩
    · exact Or.inr (ih h)

lemma stripLeft_suffix (t : Str) : stripLeft t <:+ t :=
  List.dropWhile_suffix _

lemma stripRight_isPrefix (t : Str) : stripRight t <+: t := by
  unfold stripRight
  have h : t.reverse = (t.reverse.takeWhile isWS) ++
      (t.reverse.dropWhile isWS) := (List.takeWhile_append_dropWhile ..).symm
  refine ⟨(t.reverse.takeWhile isWS).reverse, ?_⟩
  calc (t.reverse.dropWhile isWS).reverse ++
        (t.reverse.takeWhile isWS).reverse
      = ((t.reverse.takeWhile isWS) ++ (t.reverse.dropWhile isWS)).reverse :=
        by rw [List.reverse_append]
    _ = t.reverse.reverse := by rw [← h]
    _ = t := List.reverse_reverse t

lemma containsCI_pyStrip {k x : Str}
    (h : containsCI k (pyStrip x) = true) : containsCI k x = true := by
  unfold pyStrip at h
  have h1 := containsCI_of_within h (stripRight_isPrefix (stripLeft x)).isInfix
  exact containsCI_of_within h1 (stripLeft_suffix x).isInfix

/-! ### The collapsing and stripping stages are idempotent, and fix each
other's output. -/

lemma collapseWS_cons_not_ws {c : Char} (cs : Str) (h : isWS c = false) :
    collapseWS (c :: cs) = c :: collapseWS cs := by
  rw [collapseWS, if_neg (by simp [h])]

lemma collapseWS_cons_ws {c : Char} (cs : Str) (h : isWS c = true) :
    collapseWS (c :: cs) = ' ' :: collapseWS (cs.dropWhile isWS) := by
  rw [collapseWS, if_pos h]

lemma dropWhile_isWS_collapseWS_dropWhile (cs : Str) :
    (collapseWS (cs.dropWhile isWS)).dropWhile isWS =
      collapseWS (cs.dropWhile isWS) := by
  rcases h : cs.dropWhile isWS with _ | ⟨d, ds⟩
  · rw [collapseWS_nil]
    rfl
  · have hd : isWS d = false := dropWhile_cons_head_false _ cs d ds h
    rw [collapseWS_cons_not_ws ds hd, List.dropWhile_cons, if_neg (by simp [hd])]

lemma collapseWS_idem : ∀ x, collapseWS (collapseWS x) = collapseWS x := by
  intro x
  induction x using collapseWS.induct with
  | case1 => rw [collapseWS_nil]; exact collapseWS_nil
  | case2 c cs hws ih =>
    rw [collapseWS_cons_ws cs hws,
      collapseWS_cons_ws (collapseWS (cs.dropWhile isWS)) (by decide),
      dropWhile_isWS_collapseWS_dropWhile, ih]
  | case3 c cs hws ih =>
    rw [collapseWS_cons_not_ws cs (by simpa using hws),
      collapseWS_cons_not_ws (collapseWS cs) (by simpa using hws), ih]

lemma length_collapseWS_le : ∀ x : Str, (collapseWS x).length ≤ x.length := by
  intro x
  induction x using collapseWS.induct with
  | case1 => rw [collapseWS_nil]
  | case2 c cs hws ih =>
    rw [collapseWS_cons_ws cs hws]
    have := List.Sublist.length_le (List.dropWhile_sublist (l := cs)
      (p := isWS))
    simp only [List.length_cons]
    omega
  | case3 c cs hws ih =>
    rw [collapseWS_cons_not_ws cs (by simpa using hws)]
    simp only [List.length_cons]
    omega

lemma collapseWS_fixed_stripLeft {y : Str} (h : collapseWS y = y) :
    collapseWS (stripLeft y) = stripLeft y := by
  cases y with
  | nil => rw [stripLeft]; simp [collapseWS_nil]
  | cons c cs =>
    rcases hws : isWS c with _ | _
    · rw [stripLeft, List.dropWhile_cons, if_neg (by simp [hws])]
      exact h
    · rw [collapseWS_cons_ws cs hws] at h
      obtain ⟨hc, hcs⟩ : ' ' = c ∧ collapseWS (cs.dropWhile isWS) = cs := by
        constructor <;> [exact (List.cons.injEq .. ▸ h).1;
          exact (List.cons.injEq .. ▸ h).2]
      rw [stripLeft, List.dropWhile_cons, if_pos (by simp [hws])]
      have h2 : cs.dropWhile isWS = cs := by
        calc cs.dropWhile isWS
            = (collapseWS (cs.dropWhile isWS)).dropWhile isWS := by rw [hcs]
          _ = collapseWS (cs.dropWhile isWS) :=
            dropWhile_isWS_collapseWS_dropWhile cs
          _ = cs := hcs
      rw [h2]
      rw [h2] at hcs
      exact hcs

lemma dropWhile_append_of_all {p : Char → Bool} {l1 : Str} (l2 : Str)
    (h : l1.all p = true) :
    (l1 ++ l2).dropWhile p = l2.dropWhile p := by
  induction l1 with
  | nil => rfl
  | cons a as ih =>
    simp only [List.all_cons, Bool.and_eq_true] at h
    rw [List.cons_append, List.dropWhile_cons, if_pos (by simp [h.1])]
    exact ih h.2

lemma collapseWS_fixed_dropRight : ∀ (x0 : Str) (s : Str),
    s.all isWS = true → collapseWS (x0 ++ s) = x0 ++ s →
    collapseWS x0 = x0 := by
  intro x0
  induction x0 with
  | nil => intro s _ _; exact collapseWS_nil
  | cons c cs ih =>
    intro s hs heq
    rcases hws : isWS c with _ | _
    · rw [List.cons_append, collapseWS_cons_not_ws _ hws] at heq
      have h2 : collapseWS (cs ++ s) = cs ++ s :=
        (List.cons.injEq .. ▸ heq).2
      rw [collapseWS_cons_not_ws cs hws, ih s hs h2]
    · rw [List.cons_append, collapseWS_cons_ws _ hws] at heq
      obtain ⟨hc, hcs⟩ : ' ' = c ∧
          collapseWS ((cs ++ s).dropWhile isWS) = cs ++ s := by
        constructor <;> [exact (List.cons.injEq .. ▸ heq).1;
          exact (List.cons.injEq .. ▸ heq).2]
      rcases hcase : cs with _ | ⟨d, ds⟩
      · subst hcase
        have hdrop : s.dropWhile isWS = [] := by
          rw [List.dropWhile_eq_nil_iff]
          intro x hx
          rw [List.all_eq_true] at hs
          exact hs x hx
        rw [← hc]
        rw [collapseWS_cons_ws [] (by decide)]
        rw [show (([] : Str).dropWhile isWS) = [] from rfl, collapseWS_nil]
      · subst hcase
        rcases hd : isWS d with _ | _
        · have hdw : (d :: ds ++ s).dropWhile isWS = d :: ds ++ s := by
            rw [List.cons_append, List.dropWhile_cons, if_neg (by simp [hd])]
          rw [hdw] at hcs
          have := ih s hs hcs
          rw [collapseWS_cons_ws (d :: ds) hws, List.dropWhile_cons,
            if_neg (by simp [hd]), this, ← hc]
        · exfalso
          have hlen := length_collapseWS_le ((d :: ds ++ s).dropWhile isWS)
          rw [hcs] at hlen
          have h3 : (d :: ds ++ s).dropWhile isWS =
              (ds ++ s).dropWhile isWS := by
            rw [List.cons_append, List.dropWhile_cons, if_pos (by simp [hd])]
          rw [h3] at hlen
          have h4 := List.Sublist.length_le (List.dropWhile_sublist
            (l := ds ++ s) (p := isWS))
          simp only [List.length_cons, List.length_append] at hlen h4 ⊢
          omega

lemma dropWhile_idem {p : Char → Bool} (l : Str) :
    (l.dropWhile p).dropWhile p = l.dropWhile p := by
  rcases h : l.dropWhile p with _ | ⟨d, ds⟩
  · rfl
  · have hd := dropWhile_cons_head_false _ l d ds h
    rw [List.dropWhile_cons, if_neg (by simp [hd])]

lemma stripRight_idem (t : Str) : stripRight (stripRight t) = stripRight t := by
  unfold stripRight
  rw [List.reverse_reverse, dropWhile_idem]

lemma stripRight_decomp (y : Str) :
    y = stripRight y ++ (y.reverse.takeWhile isWS).reverse ∧
    ((y.reverse.takeWhile isWS).reverse : Str).all isWS = true := by
  constructor
  · conv_lhs => rw [← List.reverse_reverse y,
      ← List.takeWhile_append_dropWhile (p := isWS) (l := y.reverse)]
    rw [List.reverse_append]
    rfl
  · rw [List.all_eq_true]
    intro c hc
    rw [List.mem_reverse] at hc
    exact List.mem_takeWhile_imp hc

/-! ### Acronym expansion is idempotent and commutes with the whitespace
stages. -/

lemma takeWhile_append_of_all {p : Char → Bool} {l1 : Str} (l2 : Str)
    (h : l1.all p = true) :
    (l1 ++ l2).takeWhile p = l1 ++ l2.takeWhile p := by
  induction l1 with
  | nil => rfl
  | cons a as ih =>
    simp only [List.all_cons, Bool.and_eq_true] at h
    rw [List.cons_append, List.takeWhile_cons, if_pos (by simp [h.1]),
      ih h.2, List.cons_append]

lemma takeWhile_append_stop {p : Char → Bool} (cs : Str) {s : Str}
    (hsB : s = [] ∨ ∃ d ds, s = d :: ds ∧ p d = false) :
    (cs ++ s).takeWhile p = cs.takeWhile p ∧
    (cs ++ s).dropWhile p = cs.dropWhile p ++ s := by
  induction cs with
  | nil =>
    rcases hsB with rfl | ⟨d, ds, rfl, hd⟩
    · exact ⟨rfl, rfl⟩
    · constructor
      · rw [List.nil_append, List.takeWhile_cons, if_neg (by simp [hd])]
        rfl
      · rw [List.nil_append, List.dropWhile_cons, if_neg (by simp [hd])]
        rfl
  | cons a as ih =>
    rcases hp : p a with _ | _
    · constructor
      · rw [List.cons_append, List.takeWhile_cons, if_neg (by simp [hp]),
          List.takeWhile_cons, if_neg (by simp [hp])]
      · rw [List.cons_append, List.dropWhile_cons, if_neg (by simp [hp]),
          List.dropWhile_cons, if_neg (by simp [hp]), List.cons_append]
    · constructor
      · rw [List.cons_append, List.takeWhile_cons, if_pos (by simp [hp]),
          List.takeWhile_cons, if_pos (by simp [hp]), ih.1]
      · rw [List.cons_append, List.dropWhile_cons, if_pos (by simp [hp]),
          List.dropWhile_cons, if_pos (by simp [hp]), ih.2]

lemma expandAcronyms_all_nonword : ∀ x : Str,
    x.all (fun c => !isWordChar c) = true → expandAcronyms x = x := by
  intro x
  induction x with
  | nil => exact fun _ => expandAcronyms_nil
  | cons c cs ih =>
    intro h
    simp only [List.all_cons, Bool.and_eq_true, Bool.not_eq_true'] at h
    rw [expandAcronyms_nonword_head c cs h.1, ih (by
      rw [List.all_eq_true]
      intro a ha
      rw [List.all_eq_true] at h
      have := h.2 a ha
      simpa using this)]

lemma processWord_cons (c : Char) (w : Str) :
    ∃ z, processWord (c :: w) = c :: z := by
  unfold processWord
  split_ifs
  · cases w with
    | nil => exact ⟨[], rfl⟩
    | cons b t =>
      rw [List.intersperse_cons_cons]
      exact ⟨' ' :: List.intersperse ' ' (b :: t), rfl⟩
  · exact ⟨w, rfl⟩

lemma expandAcronyms_dropWhile_head (cs : Str) :
    expandAcronyms (cs.dropWhile isWordChar) = [] ∨
    ∃ d bs, expandAcronyms (cs.dropWhile isWordChar) = d :: bs ∧
      isWordChar d = false := by
  rcases hrc : cs.dropWhile isWordChar with _ | ⟨d, ds⟩
  · left
    rw [expandAcronyms_nil]
  · right
    have hd : isWordChar d = false :=
      dropWhile_cons_head_false _ cs d ds hrc
    exact ⟨d, expandAcronyms ds,
      by rw [expandAcronyms_nonword_head d ds hd], hd⟩

lemma takeWhile_all_self {p : Char → Bool} (l : Str) :
    (l.takeWhile p).all p = true := by
  rw [List.all_eq_true]
  intro a ha
  exact List.mem_takeWhile_imp ha

lemma dropWhile_takeWhile_nil {p : Char → Bool} (l : Str) :
    (l.takeWhile p).dropWhile p = [] := by
  rw [List.dropWhile_eq_nil_iff]
  intro x hx
  exact List.mem_takeWhile_imp hx

/-- Expansion passes a fully spaced-out acronym through unchanged when the
following text starts at a non-word character. -/
lemma expandAcronyms_intersperse (W : Str) (y : Str)
    (hW : W.all isUpperAZ = true)
    (hy : y = [] ∨ ∃ d ds, y = d :: ds ∧ isWordChar d = false) :
    expandAcronyms (List.intersperse ' ' W ++ y) =
      List.intersperse ' ' W ++ expandAcronyms y := by
  induction W with
  | nil => simp
  | cons a t ih =>
    have haU : isUpperAZ a = true := by
      simp only [List.all_cons, Bool.and_eq_true] at hW
      exact hW.1
    have haW : isWordChar a = true := isUpperAZ_isWordChar haU
    cases t with
    | nil =>
      rw [List.intersperse_singleton]
      rw [show ([a] : Str) ++ y = a :: y from rfl]
      rw [expandAcronyms]
      rw [if_pos haW]
      have hty : y.takeWhile isWordChar = [] ∧
          y.dropWhile isWordChar = y := by
        rcases hy with rfl | ⟨d, ds, rfl, hd⟩
        · exact ⟨rfl, rfl⟩
        · constructor
          · rw [List.takeWhile_cons, if_neg (by simp [hd])]
          · rw [List.dropWhile_cons, if_neg (by simp [hd])]
      rw [hty.1, hty.2]
      rw [show processWord (a :: []) = [a] from by
        unfold processWord; simp]
    | cons b t2 =>
      rw [List.intersperse_cons_cons]
      rw [show (a :: ' ' :: List.intersperse ' ' (b :: t2)) ++ y =
        a :: (' ' :: (List.intersperse ' ' (b :: t2) ++ y)) from rfl]
      rw [expandAcronyms]
      rw [if_pos haW]
      have hsp : (' ' :: (List.intersperse ' ' (b :: t2) ++
          y)).takeWhile isWordChar = [] := by
        rw [List.takeWhile_cons, if_neg (by decide)]
      have hsp2 : (' ' :: (List.intersperse ' ' (b :: t2) ++
          y)).dropWhile isWordChar =
          ' ' :: (List.intersperse ' ' (b :: t2) ++ y) := by
        rw [List.dropWhile_cons, if_neg (by decide)]
      rw [hsp, hsp2]
      rw [show processWord (a :: []) = [a] from by
        unfold processWord; simp]
      rw [expandAcronyms_nonword_head _ _ (by decide)]
      have hWtail : (b :: t2).all isUpperAZ = true := by
        simp only [List.all_cons, Bool.and_eq_true] at hW ⊢
        exact hW.2
      rw [ih hWtail]
      rfl

lemma expandAcronyms_idem : ∀ x, expandAcronyms (expandAcronyms x) =
    expandAcronyms x := by
  intro x
  induction x using expandAcronyms.induct with
  | case1 => rw [expandAcronyms_nil, expandAcronyms_nil]
  | case2 c cs hcw ih =>
    rw [expandAcronyms, if_pos hcw]
    have hrB := expandAcronyms_dropWhile_head cs
    by_cases hq : ((c :: cs.takeWhile isWordChar).all isUpperAZ &&
        (decide (2 ≤ (c :: cs.takeWhile isWordChar).length) &&
          decide ((c :: cs.takeWhile isWordChar).length ≤ 4))) = true
    · have hpw : processWord (c :: cs.takeWhile isWordChar) =
          List.intersperse ' ' (c :: cs.takeWhile isWordChar) := by
        unfold processWord
        rw [if_pos hq]
      rw [hpw]
      have hWU : (c :: cs.takeWhile isWordChar).all isUpperAZ = true := by
        simp only [Bool.and_eq_true] at hq
        exact hq.1
      rw [expandAcronyms_intersperse _ _ hWU hrB, ih]
    · have hpw : processWord (c :: cs.takeWhile isWordChar) =
          c :: cs.takeWhile isWordChar := by
        unfold processWord
        rw [if_neg hq]
      rw [hpw]
      rw [show (c :: cs.takeWhile isWordChar) ++
        expandAcronyms (cs.dropWhile isWordChar) =
        c :: (cs.takeWhile isWordChar ++
          expandAcronyms (cs.dropWhile isWordChar)) from rfl]
      rw [expandAcronyms, if_pos hcw]
      have hT := takeWhile_append_stop (p := isWordChar)
        (cs.takeWhile isWordChar) hrB
      rw [hT.1, hT.2]
      rw [List.takeWhile_idem]
      rw [dropWhile_takeWhile_nil]
      rw [List.nil_append, hpw, ih]
      rfl
  | case3 c cs hcw ih =>
    have hc : isWordChar c = false := by simpa using hcw
    rw [expandAcronyms_nonword_head c cs hc,
      expandAcronyms_nonword_head c _ hc, ih]

lemma dropWhile_isWS_expandAcronyms : ∀ x : Str,
    (expandAcronyms x).dropWhile isWS = expandAcronyms (x.dropWhile isWS) := by
  intro x
  induction x using expandAcronyms.induct with
  | case1 =>
    rw [expandAcronyms_nil,
      show (([] : Str).dropWhile isWS) = ([] : Str) from rfl,
      expandAcronyms_nil]
  | case2 c cs hcw ih =>
    have hcns : isWS c = false := isWordChar_not_isWS hcw
    obtain ⟨z, hz⟩ := processWord_cons c (cs.takeWhile isWordChar)
    rw [expandAcronyms, if_pos hcw, hz]
    rw [show (c :: z) ++ expandAcronyms (cs.dropWhile isWordChar) =
      c :: (z ++ expandAcronyms (cs.dropWhile isWordChar)) from rfl]
    rw [List.dropWhile_cons, if_neg (by simp [hcns])]
    rw [show (c :: cs).dropWhile isWS = c :: cs from by
      rw [List.dropWhile_cons, if_neg (by simp [hcns])]]
    rw [expandAcronyms, if_pos hcw, hz]
    rfl
  | case3 c cs hcw ih =>
    have hc : isWordChar c = false := by simpa using hcw
    rw [expandAcronyms_nonword_head c cs hc]
    rcases hws : isWS c with _ | _
    · rw [List.dropWhile_cons, if_neg (by simp [hws])]
      rw [show (c :: cs).dropWhile isWS = c :: cs from by
        rw [List.dropWhile_cons, if_neg (by simp [hws])]]
      rw [expandAcronyms_nonword_head c cs hc]
    · rw [List.dropWhile_cons, if_pos (by simp [hws])]
      rw [show (c :: cs).dropWhile isWS = cs.dropWhile isWS from by
        rw [List.dropWhile_cons, if_pos (by simp [hws])]]
      exact ih

lemma all_word_nonws {w : Str} (h : w.all isWordChar = true) :
    w.all (fun c => !isWS c) = true := by
  rw [List.all_eq_true] at h ⊢
  intro a ha
  simpa using isWordChar_not_isWS (h a ha)

lemma collapseWS_append_nonws (A y : Str)
    (hA : A.all (fun c => !isWS c) = true) :
    collapseWS (A ++ y) = A ++ collapseWS y := by
  induction A with
  | nil => rfl
  | cons a as ih =>
    simp only [List.all_cons, Bool.and_eq_true, Bool.not_eq_true'] at hA
    rw [List.cons_append, collapseWS_cons_not_ws _ hA.1,
      ih (by rw [List.all_eq_true]; intro x hx
             have := hA.2
             rw [List.all_eq_true] at this
             exact this x hx),
      List.cons_append]

lemma intersperse_head (b : Char) (t : Str) :
    ∃ z, List.intersperse ' ' (b :: t) = b :: z := by
  cases t with
  | nil => exact ⟨[], rfl⟩
  | cons d ds =>
    rw [List.intersperse_cons_cons]
    exact ⟨' ' :: List.intersperse ' ' (d :: ds), rfl⟩

lemma collapseWS_intersperse_append (W : Str) (y : Str)
    (hW : W.all isUpperAZ = true) :
    collapseWS (List.intersperse ' ' W ++ y) =
      List.intersperse ' ' W ++ collapseWS y := by
  induction W with
  | nil => rfl
  | cons a t ih =>
    have haU : isUpperAZ a = true := by
      simp only [List.all_cons, Bool.and_eq_true] at hW
      exact hW.1
    have haNS : isWS a = false :=
      isWordChar_not_isWS (isUpperAZ_isWordChar haU)
    cases t with
    | nil =>
      rw [List.intersperse_singleton]
      rw [show ([a] : Str) ++ y = a :: y from rfl,
        collapseWS_cons_not_ws _ haNS]
      rfl
    | cons b t2 =>
      have hbU : isUpperAZ b = true := by
        simp only [List.all_cons, Bool.and_eq_true] at hW
        exact hW.2.1
      have hbNS : isWS b = false :=
        isWordChar_not_isWS (isUpperAZ_isWordChar hbU)
      obtain ⟨z, hz⟩ := intersperse_head b t2
      rw [List.intersperse_cons_cons]
      rw [show (a :: ' ' :: List.intersperse ' ' (b :: t2)) ++ y =
        a :: ' ' :: (List.intersperse ' ' (b :: t2) ++ y) from rfl]
      rw [collapseWS_cons_not_ws _ haNS, collapseWS_cons_ws _ (by decide)]
      rw [show (List.intersperse ' ' (b :: t2) ++ y).dropWhile isWS =
        List.intersperse ' ' (b :: t2) ++ y from by
        rw [hz, List.cons_append, List.dropWhile_cons,
          if_neg (by simp [hbNS])]]
      have hWtail : (b :: t2).all isUpperAZ = true := by
        simp only [List.all_cons, Bool.and_eq_true] at hW ⊢
        exact hW.2
      rw [ih hWtail]
      rfl

lemma collapse_head_nonword (r : Str)
    (hr : r = [] ∨ ∃ d ds, r = d :: ds ∧ isWordChar d = false) :
    collapseWS r = [] ∨
    ∃ d ds, collapseWS r = d :: ds ∧ isWordChar d = false := by
  rcases hr with rfl | ⟨d, ds, rfl, hd⟩
  · left
    exact collapseWS_nil
  · right
    rcases hws : isWS d with _ | _
    · exact ⟨d, collapseWS ds, collapseWS_cons_not_ws ds hws, hd⟩
    · exact ⟨' ', collapseWS (ds.dropWhile isWS),
        collapseWS_cons_ws ds hws, by decide⟩

lemma dropWhile_head_nonword (cs : Str) :
    cs.dropWhile isWordChar = [] ∨
    ∃ d ds, cs.dropWhile isWordChar = d :: ds ∧ isWordChar d = false := by
  rcases h : cs.dropWhile isWordChar with _ | ⟨d, ds⟩
  · exact Or.inl rfl
  · exact Or.inr ⟨d, ds, rfl, dropWhile_cons_head_false _ cs d ds h⟩

lemma collapseWS_expandAcronyms_key : ∀ n : Nat, ∀ x : Str, x.length ≤ n →
    collapseWS (expandAcronyms x) = expandAcronyms (collapseWS x) := by
  intro n
  induction n with
  | zero =>
    intro x hx
    have hnil : x = [] := List.eq_nil_of_length_eq_zero (Nat.le_zero.mp hx)
    subst hnil
    rw [expandAcronyms_nil, collapseWS_nil, expandAcronyms_nil]
  | succ n ih =>
    intro x hx
    cases x with
    | nil =>
      rw [expandAcronyms_nil, collapseWS_nil, expandAcronyms_nil]
    | cons c cs =>
      simp only [List.length_cons, Nat.succ_le_succ_iff] at hx
      by_cases hw : isWordChar c = true
      · have hcns : isWS c = false := isWordChar_not_isWS hw
        have hwall : (cs.takeWhile isWordChar).all isWordChar = true :=
          takeWhile_all_self cs
        have hrlen : (cs.dropWhile isWordChar).length ≤ n :=
          le_trans (List.Sublist.length_le (List.dropWhile_sublist _)) hx
        have ihr := ih (cs.dropWhile isWordChar) hrlen
        have hcolr := collapse_head_nonword _ (dropWhile_head_nonword cs)
        have hRHS : expandAcronyms (collapseWS (c :: cs)) =
            processWord (c :: cs.takeWhile isWordChar) ++
              expandAcronyms (collapseWS (cs.dropWhile isWordChar)) := by
          rw [collapseWS_cons_not_ws _ hcns]
          conv_lhs => rw [show cs = cs.takeWhile isWordChar ++
            cs.dropWhile isWordChar from
            (List.takeWhile_append_dropWhile ..).symm]
          rw [collapseWS_append_nonws _ _ (all_word_nonws hwall)]
          rw [show c :: (cs.takeWhile isWordChar ++
            collapseWS (cs.dropWhile isWordChar)) =
            (c :: cs.takeWhile isWordChar) ++
            collapseWS (cs.dropWhile isWordChar) from rfl]
          rw [show (c :: cs.takeWhile isWordChar) ++
            collapseWS (cs.dropWhile isWordChar) =
            c :: (cs.takeWhile isWordChar ++
              collapseWS (cs.dropWhile isWordChar)) from rfl]
          rw [expandAcronyms, if_pos hw]
          have hT := takeWhile_append_stop (p := isWordChar)
            (cs.takeWhile isWordChar) hcolr
          rw [hT.1, hT.2, List.takeWhile_idem, dropWhile_takeWhile_nil,
            List.nil_append]
        rw [expandAcronyms, if_pos hw, hRHS]
        by_cases hq : ((c :: cs.takeWhile isWordChar).all isUpperAZ &&
            (decide (2 ≤ (c :: cs.takeWhile isWordChar).length) &&
              decide ((c :: cs.takeWhile isWordChar).length ≤ 4))) = true
        · have hpw : processWord (c :: cs.takeWhile isWordChar) =
              List.intersperse ' ' (c :: cs.takeWhile isWordChar) := by
            unfold processWord
            rw [if_pos hq]
          have hWU : (c :: cs.takeWhile isWordChar).all isUpperAZ = true := by
            simp only [Bool.and_eq_true] at hq
            exact hq.1
          rw [hpw, collapseWS_intersperse_append _ _ hWU, ihr]
        · have hpw : processWord (c :: cs.takeWhile isWordChar) =
              c :: cs.takeWhile isWordChar := by
            unfold processWord
            rw [if_neg hq]
          rw [hpw, collapseWS_append_nonws _ _ (all_word_nonws (by
            simp only [List.all_cons, Bool.and_eq_true]
            exact ⟨hw, hwall⟩)), ihr]
      · have hc : isWordChar c = false := by simpa using hw
        rw [expandAcronyms_nonword_head c cs hc]
        rcases hws : isWS c with _ | _
        · have ihcs := ih cs hx
          rw [collapseWS_cons_not_ws _ hws, collapseWS_cons_not_ws _ hws,
            expandAcronyms_nonword_head c _ hc, ihcs]
        · have ihds := ih (cs.dropWhile isWS)
            (le_trans (List.Sublist.length_le (List.dropWhile_sublist _)) hx)
          rw [collapseWS_cons_ws _ hws, collapseWS_cons_ws _ hws,
            dropWhile_isWS_expandAcronyms,
            expandAcronyms_nonword_head ' ' _ (by decide), ihds]

lemma collapseWS_expandAcronyms (x : Str) :
    collapseWS (expandAcronyms x) = expandAcronyms (collapseWS x) :=
  collapseWS_expandAcronyms_key x.length x le_rfl

lemma all_ws_nonword {s : Str} (h : s.all isWS = true) :
    s.all (fun c => !isWordChar c) = true := by
  rw [List.all_eq_true] at h ⊢
  intro a ha
  simpa using isWS_not_isWordChar (h a ha)

lemma expandAcronyms_append_ws : ∀ y : Str, ∀ s : Str, s.all isWS = true →
    expandAcronyms (y ++ s) = expandAcronyms y ++ s := by
  intro y
  induction y using expandAcronyms.induct with
  | case1 =>
    intro s hs
    rw [List.nil_append, expandAcronyms_nil, List.nil_append]
    exact expandAcronyms_all_nonword s (all_ws_nonword hs)
  | case2 c cs hcw ih =>
    intro s hs
    have hsB : s = [] ∨ ∃ d ds, s = d :: ds ∧ isWordChar d = false := by
      cases s with
      | nil => exact Or.inl rfl
      | cons d ds =>
        refine Or.inr ⟨d, ds, rfl, ?_⟩
        have hd : isWS d = true := by
          simp only [List.all_cons, Bool.and_eq_true] at hs
          exact hs.1
        exact isWS_not_isWordChar hd
    have hT := takeWhile_append_stop (p := isWordChar) cs hsB
    rw [List.cons_append]
    rw [expandAcronyms, if_pos hcw, hT.1, hT.2]
    rw [ih s hs]
    rw [expandAcronyms, if_pos hcw]
    rw [List.append_assoc]
  | case3 c cs hcw ih =>
    intro s hs
    have hc : isWordChar c = false := by simpa using hcw
    rw [List.cons_append, expandAcronyms_nonword_head c _ hc,
      expandAcronyms_nonword_head c cs hc, ih s hs, List.cons_append]

lemma stripLeft_fixed_head {c : Char} {cs : Str}
    (h : stripLeft (c :: cs) = c :: cs) : isWS c = false := by
  rcases hws : isWS c with _ | _
  · rfl
  · exfalso
    rw [stripLeft, List.dropWhile_cons, if_pos (by simp [hws])] at h
    have hlen := congrArg List.length h
    have hle : (cs.dropWhile isWS).length ≤ cs.length :=
      List.Sublist.length_le (List.dropWhile_sublist _)
    simp only [List.length_cons] at hlen
    omega

lemma stripLeft_stripRight_fixed {y : Str} (h : stripLeft y = y) :
    stripLeft (stripRight y) = stripRight y := by
  rcases hsr : stripRight y with _ | ⟨c, cs⟩
  · rw [stripLeft]
    rfl
  · obtain ⟨hdec, _⟩ := stripRight_decomp y
    rw [hsr] at hdec
    have h2 : stripLeft (c :: (cs ++ (y.reverse.takeWhile isWS).reverse)) =
        c :: (cs ++ (y.reverse.takeWhile isWS).reverse) := by
      rw [← List.cons_append, ← hdec]
      exact h
    have hc : isWS c = false := stripLeft_fixed_head h2
    rw [stripLeft, List.dropWhile_cons, if_neg (by simp [hc])]

/-- Any text fixed by both the acronym-expansion and collapse stages is,
after stripping, fixed by all three final stages of normalize_text. -/
lemma strip_package (y : Str) (hyE : expandAcronyms y = y)
    (hyC : collapseWS y = y) :
    expandAcronyms (pyStrip y) = pyStrip y ∧
    collapseWS (pyStrip y) = pyStrip y ∧
    pyStrip (pyStrip y) = pyStrip y := by
  have hy1E : expandAcronyms (stripLeft y) = stripLeft y := by
    have h1 := dropWhile_isWS_expandAcronyms y
    rw [hyE] at h1
    rw [stripLeft]
    exact h1.symm
  have hy1C : collapseWS (stripLeft y) = stripLeft y :=
    collapseWS_fixed_stripLeft hyC
  have hy1L : stripLeft (stripLeft y) = stripLeft y := by
    rw [stripLeft, stripLeft]
    exact dropWhile_idem y
  obtain ⟨hdec, hws⟩ := stripRight_decomp (stripLeft y)
  refine ⟨?_, ?_, ?_⟩
  · unfold pyStrip
    have h7 := expandAcronyms_append_ws (stripRight (stripLeft y)) _ hws
    rw [← hdec, hy1E] at h7
    have h8 : expandAcronyms (stripRight (stripLeft y)) ++
        ((stripLeft y).reverse.takeWhile isWS).reverse =
        stripRight (stripLeft y) ++
        ((stripLeft y).reverse.takeWhile isWS).reverse := h7.symm.trans hdec
    exact List.append_cancel_right h8
  · unfold pyStrip
    refine collapseWS_fixed_dropRight _ _ hws ?_
    rw [← hdec]
    exact hy1C
  · unfold pyStrip
    rw [stripLeft_stripRight_fixed hy1L, stripRight_idem]

/-! ### The concrete pronunciation-map keys and replacements satisfy the
no-new-occurrence side conditions. -/

lemma k1_hst1 : ∀ j, j < ("Bandhan Nova".data : Str).length →
    agreeCI ("BandhanNova".data)
      (("Bandhan Nova".data : Str).drop j) = false := by
  intro j hj
  rw [show ("Bandhan Nova".data : Str).length = 12 from rfl] at hj
  interval_cases j <;> decide

lemma k1_hst2 : ∀ i, 0 < i → i < ("BandhanNova".data : Str).length →
    agreeCI (("BandhanNova".data : Str).drop i)
      ("Bandhan Nova".data) = false := by
  intro i h0 hlen
  rw [show ("BandhanNova".data : Str).length = 11 from rfl] at hlen
  interval_cases i <;> decide

lemma k2_hst1 : ∀ j, j < ("Bandha Nova".data : Str).length →
    agreeCI ("BandhaNova".data)
      (("Bandha Nova".data : Str).drop j) = false := by
  intro j hj
  rw [show ("Bandha Nova".data : Str).length = 11 from rfl] at hj
  interval_cases j <;> decide

lemma k2_hst2 : ∀ i, 0 < i → i < ("BandhaNova".data : Str).length →
    agreeCI (("BandhaNova".data : Str).drop i)
      ("Bandha Nova".data) = false := by
  intro i h0 hlen
  rw [show ("BandhaNova".data : Str).length = 10 from rfl] at hlen
  interval_cases i <;> decide

lemma k1r2_hst1 : ∀ j, j < ("Bandha Nova".data : Str).length →
    agreeCI ("BandhanNova".data)
      (("Bandha Nova".data : Str).drop j) = false := by
  intro j hj
  rw [show ("Bandha Nova".data : Str).length = 11 from rfl] at hj
  interval_cases j <;> decide

lemma k1r2_hst2 : ∀ i, 0 < i → i < ("BandhanNova".data : Str).length →
    agreeCI (("BandhanNova".data : Str).drop i)
      ("Bandha Nova".data) = false := by
  intro i h0 hlen
  rw [show ("BandhanNova".data : Str).length = 11 from rfl] at hlen
  interval_cases i <;> decide

lemma containsCI_expand_false {k : Str} (hk : k.all isWordChar = true)
    (hk2 : 2 ≤ k.length) {u : Str} (h : containsCI k u = false) :
    containsCI k (expandAcronyms u) = false := by
  rcases hcc : containsCI k (expandAcronyms u) with _ | _
  · rfl
  · exact absurd (containsCI_expandAcronyms hk hk2 u hcc) (by simp [h])

lemma containsCI_collapse_false {k : Str}
    (hknw : k.all (fun c => !isWS c) = true) (hk : k ≠ []) {u : Str}
    (h : containsCI k u = false) :
    containsCI k (collapseWS u) = false := by
  rcases hcc : containsCI k (collapseWS u) with _ | _
  · rfl
  · exact absurd (containsCI_collapseWS hknw hk u hcc) (by simp [h])

lemma containsCI_pyStrip_false {k u : Str} (h : containsCI k u = false) :
    containsCI k (pyStrip u) = false := by
  rcases hcc : containsCI k (pyStrip u) with _ | _
  · rfl
  · exact absurd (containsCI_pyStrip hcc) (by simp [h])

lemma normalize_text_ne_nil (t language : Str) (ht : ¬ t = []) :
    normalize_text t language =
      pyStrip (collapseWS (expandAcronyms
        (replaceCI ("BandhaNova".data) ("Bandha Nova".data)
          (replaceCI ("BandhanNova".data) ("Bandhan Nova".data) t)))) := by
  rw [normalize_text, if_neg ht]
  rfl

/-- C6: normalize_text is idempotent — applying it twice to any text, for
any language, gives the same result as applying it once.  The proof tracks
the text through the pipeline of text_utils.py: the pronunciation map
creates no new (case-insensitive) occurrence of either key, acronym
expansion is idempotent and commutes with whitespace collapsing and
stripping, and collapsing and stripping are idempotent. -/
theorem C6_normalize_idempotent (t language : Str) :
    normalize_text (normalize_text t language) language =
      normalize_text t language := by
  by_cases ht : t = []
  · subst ht
    rfl
  · have hNt := normalize_text_ne_nil t language ht
    have h1 : containsCI ("BandhanNova".data)
        (replaceCI ("BandhanNova".data) ("Bandhan Nova".data) t) = false :=
      replaceCI_no_self_occurrence _ _ (by decide) k1_hst1 k1_hst2 t
    have h2 : containsCI ("BandhanNova".data)
        (replaceCI ("BandhaNova".data) ("Bandha Nova".data)
          (replaceCI ("BandhanNova".data) ("Bandhan Nova".data) t)) =
        false :=
      replaceCI_no_cross_occurrence _ _ _ (by decide) k1r2_hst1 k1r2_hst2
        _ h1
    have h3 : containsCI ("BandhaNova".data)
        (replaceCI ("BandhaNova".data) ("Bandha Nova".data)
          (replaceCI ("BandhanNova".data) ("Bandhan Nova".data) t)) =
        false :=
      replaceCI_no_self_occurrence _ _ (by decide) k2_hst1 k2_hst2 _
    generalize hu0 : replaceCI ("BandhaNova".data) ("Bandha Nova".data)
      (replaceCI ("BandhanNova".data) ("Bandhan Nova".data) t) = u0
      at h2 h3 hNt
    have hk1S : containsCI ("BandhanNova".data)
        (pyStrip (collapseWS (expandAcronyms u0))) = false :=
      containsCI_pyStrip_false (containsCI_collapse_false (by decide)
        (by decide) (containsCI_expand_false (by decide) (by decide) h2))
    have hk2S : containsCI ("BandhaNova".data)
        (pyStrip (collapseWS (expandAcronyms u0))) = false :=
      containsCI_pyStrip_false (containsCI_collapse_false (by decide)
        (by decide) (containsCI_expand_false (by decide) (by decide) h3))
    have hyE : expandAcronyms (collapseWS (expandAcronyms u0)) =
        collapseWS (expandAcronyms u0) := by
      calc expandAcronyms (collapseWS (expandAcronyms u0))
          = collapseWS (expandAcronyms (expandAcronyms u0)) :=
            (collapseWS_expandAcronyms (expandAcronyms u0)).symm
        _ = collapseWS (expandAcronyms u0) := by
            rw [expandAcronyms_idem u0]
    have hyC : collapseWS (collapseWS (expandAcronyms u0)) =
        collapseWS (expandAcronyms u0) := collapseWS_idem _
    obtain ⟨hSE, hSC, hSS⟩ := strip_package _ hyE hyC
    rw [hNt]
    by_cases hS : pyStrip (collapseWS (expandAcronyms u0)) = []
    · rw [hS]
      rfl
    · rw [normalize_text_ne_nil _ language hS]
      rw [replaceCI_of_not_contains _ _ _ hk1S]
      rw [replaceCI_of_not_contains _ _ _ hk2S]
      rw [hSE, hSC, hSS]

/-- Witness for the amended C3: distinct delimiter-free tuples get
distinct fingerprints. -/
theorem C3_fingerprint_injective_witness :
    _get_cache_path ("a".data) ("en".data) (some ("v".data)) ("1.0".data) ≠
      _get_cache_path ("b".data) ("en".data) (some ("v".data)) ("1.0".data) :=
  fun h =>
    absurd (C3_fingerprint_injective_without_delimiter _ _ _ _ _ _ _ _
      (by decide) (by decide) (by decide) (by decide) (by decide) (by decide)
      h).1 (by decide)

end TTS
